import Mathlib

/-!
Verification development for the browser-based proctoring tool.

Shallow embedding of the core logic:
* `src/lib/report.ts` — scoring engine (`computeIntegrity`, `summarizeCounts`,
  `estimateDurationMs`);
* `src/lib/detect/useObjectDetect.ts` — object-detection debounce loop;
* `src/lib/detect/useFaceFocus.ts` — face-presence / gaze loop;
* `src/app/interview/[id]/page.tsx` — event buffer and flush-with-retry;
* `src/app/api/interviews/[id]/route.ts` — session PATCH handler;
* `src/app/api/events/route.ts` — event-ingestion POST handler.

JavaScript `number` timestamps (ms) are embedded as `Int`, confidence scores as
`Rat`.  JS `Record` objects are embedded as `String → Option _` lookups (or as
association lists where the source iterates over entries).  Free-form metadata
is embedded as an opaque `Option String` payload.
-/

namespace Proctor

/-! ### Scoring engine (`src/lib/report.ts`) -/

/-- Minimal shape of an event row used by reports (`EventRow` in report.ts).
`meta` is an opaque stand-in for `Record<string, unknown>`. -/
structure EventRow where
  interviewId : String
  t : Int
  type : String
  confidence : Option Rat
  meta : Option String
  createdAt : String
deriving DecidableEq

/-- A `{ type -> count }` map, in JS `Object.entries` order
(`CountMap` in report.ts). -/
abbrev CountMap := List (String × Nat)

/-- `summarizeCounts`: tally events by type.  Entry order mirrors JS object
key-insertion order: first occurrence of a type appends a new entry. -/
def bumpCount (m : CountMap) (ty : String) : CountMap :=
  match m with
  | [] => [(ty, 1)]
  | (k, n) :: rest => if k = ty then (k, n + 1) :: rest else (k, n) :: bumpCount rest ty

def summarizeCounts (events : List EventRow) : CountMap :=
  events.foldl (fun m e => bumpCount m e.type) []

/-- Scoring rules (deductions): per-occurrence amount and cap, per event type
(`RULES` in report.ts). -/
def RULES : List (String × Int × Int) :=
  [("FOCUS_LOST_5S", 2, 20),
   ("NO_FACE_10S", 5, 25),
   ("MULTIPLE_FACES", 15, 30),
   ("PHONE_DETECTED", 10, 30),
   ("BOOK_DETECTED", 5, 20),
   ("EXTRA_DEVICE", 5, 20)]

/-- One row of the deduction breakdown (`{ type, times, deduct }`). -/
structure BreakdownRow where
  type : String
  times : Nat
  deduct : Int
deriving DecidableEq

/-- The per-entry loop body of `computeIntegrity`: look the type up in `RULES`;
no rule ⇒ `continue`; otherwise deduct `min(per * n, cap)`, floor the score at
0, and push a breakdown row. -/
def scoreStep (acc : Int × List BreakdownRow) (entry : String × Nat) : Int × List BreakdownRow :=
  match RULES.lookup entry.1 with
  | none => acc
  | some (per, cap) =>
    let deduct := min (per * (entry.2 : Int)) cap
    (max 0 (acc.1 - deduct), acc.2 ++ [⟨entry.1, entry.2, deduct⟩])

/-- Stable insertion of a row into a list already sorted descending by
`deduct`: the new row goes after every existing row with `deduct ≥` its own.
This models `Array.prototype.sort` (stable per ES2019) with comparator
`(a, b) => b.deduct - a.deduct`. -/
def insertRowDesc (x : BreakdownRow) : List BreakdownRow → List BreakdownRow
  | [] => [x]
  | y :: ys => if x.deduct ≤ y.deduct then y :: insertRowDesc x ys else x :: y :: ys

/-- Stable sort, descending by `deduct`. -/
def sortRowsDesc (l : List BreakdownRow) : List BreakdownRow :=
  l.foldl (fun acc x => insertRowDesc x acc) []

/-- `computeIntegrity`: start at 100, fold `scoreStep` over the count-map
entries, then sort the breakdown descending by deduction. -/
def computeIntegrity (counts : CountMap) : Int × List BreakdownRow :=
  let r := counts.foldl scoreStep (100, [])
  (r.1, sortRowsDesc r.2)

/-- Modelled from the claim wording (C2), for refinement comparison with
`computeIntegrity`: one entry's effect — a type that has a rule and a nonzero
count deducts `min(per * count, cap)` with the running score floored at 0;
everything else leaves the score unchanged. -/
def claimStepC2 (s : Int) (entry : String × Nat) : Int :=
  match RULES.lookup entry.1 with
  | none => s
  | some (per, cap) =>
    if entry.2 ≠ 0 then max 0 (s - min (per * (entry.2 : Int)) cap) else s

/-- Modelled from the claim wording (C2): start at 100 and fold the per-entry
deduction over the count map. -/
def claimScoreC2 (counts : CountMap) : Int :=
  counts.foldl claimStepC2 100

/-- `estimateDurationMs`: `end − start` when both present, else the last
event's `t` (`lastT || 0`), else 0.  ISO timestamps are embedded directly as
millisecond `Int`s. -/
def estimateDurationMs (startedAtMs endedAtMs : Option Int) (events : List EventRow) : Int :=
  match startedAtMs, endedAtMs with
  | some s, some e => e - s
  | _, _ =>
    let lastT : Int :=
      match events.getLast? with
      | some ev => ev.t
      | none => 0
    if lastT = 0 then 0 else lastT

/-! ### Object-detection debounce loop (`src/lib/detect/useObjectDetect.ts`)

One processing tick of the detect loop (the body of `run` after the model
call), acting on the refs `firstAboveRef` / `lastFiredRef`.  The per-class
config records `minConf` / `persistMs` are embedded as lookup functions with
the source's fallback defaults (`?? 0.7`, `?? 800`); the cooldown `1500` is
hard-coded in the source. -/

/-- Rational constants in reduced form, so that concrete runs reduce in the
kernel: 0.7 (default `minConf`), 0.35 (gaze threshold), 0.9 and 0.5 (witness
confidences). -/
def q07 : Rat := ⟨7, 10, by decide, by decide⟩

def q035 : Rat := ⟨7, 20, by decide, by decide⟩

def q09 : Rat := ⟨9, 10, by decide, by decide⟩

def qHalf : Rat := ⟨1, 2, by decide, by decide⟩

/-- A raw detection (`DetectedObject`): a class label and an optional score. -/
structure Detection where
  cls : String
  score : Option Rat
deriving DecidableEq

/-- The event class (if any) that a model label maps to (`CLASS_TO_EVENT`). -/
def CLASS_TO_EVENT (c : String) : Option String :=
  if c = "cell phone" then some (("PHONE_DETECTED" : String)) else none

/-- `Object.values(CLASS_TO_EVENT)`: the monitored event classes. -/
def MONITORED : List String := ["PHONE_DETECTED"]

/-- Merged per-class config (`minConf` / `persistMs` after spreading the
defaults), embedded as lookup functions. -/
structure ObjConfig where
  minConf : String → Option Rat
  persistMs : String → Option Int

/-- The loop's mutable refs: `firstAboveRef.current` / `lastFiredRef.current`
as `Record<EventType, number>` lookups (a missing key is `none`). -/
structure ObjState where
  firstAbove : String → Option Int
  lastFired : String → Option Int

/-- Both records start empty (`{}`). -/
def initObjState : ObjState := ⟨fun _ => none, fun _ => none⟩

/-- An emitted event with the metadata relevant to the claims: class, firing
time, and the `persistedMs` value put into the event metadata. -/
structure Emission where
  evt : String
  firedAt : Int
  persistedMs : Int
deriving DecidableEq

/-- Accumulator for the `for (const d of dets)` loop: `presentThisFrame`,
the mutated refs, and the events emitted so far this tick. -/
structure ObjAcc where
  present : List String
  st : ObjState
  out : List Emission

/-- Point-update of the `firstAbove` record. -/
def setFA (st : ObjState) (evt : String) (v : Option Int) : ObjState :=
  ⟨fun k => if k = evt then v else st.firstAbove k, st.lastFired⟩

/-- Point-update of the `lastFired` record. -/
def setLF (st : ObjState) (evt : String) (v : Option Int) : ObjState :=
  ⟨st.firstAbove, fun k => if k = evt then v else st.lastFired k⟩

/-- Body of the per-detection loop: map the label, reject below-threshold
scores, mark the class present, set `firstAboveAt` if null, and fire when
`persisted >= needMs && now - last >= 1500` (setting `lastFiredAt = now`). -/
def objProcessDet (cfg : ObjConfig) (now : Int) (acc : ObjAcc) (d : Detection) : ObjAcc :=
  match CLASS_TO_EVENT d.cls with
  | none => acc
  | some evt =>
    let conf := d.score.getD 0
    let needConf := (cfg.minConf evt).getD q07
    if conf < needConf then acc
    else
      let fa := (acc.st.firstAbove evt).getD now
      let st1 := setFA acc.st evt (some fa)
      let needMs := (cfg.persistMs evt).getD 800
      let persisted := now - fa
      let last := (st1.lastFired evt).getD 0
      if needMs ≤ persisted ∧ 1500 ≤ now - last then
        ⟨evt :: acc.present, setLF st1 evt (some now), acc.out ++ [⟨evt, now, persisted⟩]⟩
      else
        ⟨evt :: acc.present, st1, acc.out⟩

/-- One processing tick: fold the detections, then
`delete firstAboveRef.current[key]` for every monitored class not present. -/
def objTick (cfg : ObjConfig) (now : Int) (dets : List Detection) (st : ObjState) :
    ObjState × List Emission :=
  let acc := dets.foldl (objProcessDet cfg now) ⟨[], st, []⟩
  (⟨fun k => if k ∈ MONITORED ∧ ¬ k ∈ acc.present then none else acc.st.firstAbove k,
    acc.st.lastFired⟩,
   acc.out)

/-- One tick's external input: the wall-clock time and the model output. -/
structure ObjTickIn where
  now : Int
  dets : List Detection
deriving DecidableEq

/-- Run the detect loop over a sequence of processing ticks, collecting all
emitted events in order. -/
def objRun (cfg : ObjConfig) : List ObjTickIn → ObjState → ObjState × List Emission
  | [], st => (st, [])
  | tk :: rest, st =>
    let r1 := objTick cfg tk.now tk.dets st
    let r2 := objRun cfg rest r1.1
    (r2.1, r1.2 ++ r2.2)

/-- A detection qualifies for class `evt`: its label maps to `evt` and its
score is not below the class's confidence threshold. -/
def qualifies (cfg : ObjConfig) (evt : String) (d : Detection) : Prop :=
  CLASS_TO_EVENT d.cls = some evt ∧ ¬ d.score.getD 0 < (cfg.minConf evt).getD q07

instance (cfg : ObjConfig) (evt : String) (d : Detection) : Decidable (qualifies cfg evt d) := by
  unfold qualifies; infer_instance

/-- Class `evt` is detected at-or-above threshold on tick `tk`. -/
def presentAt (cfg : ObjConfig) (evt : String) (tk : ObjTickIn) : Prop :=
  ∃ d ∈ tk.dets, qualifies cfg evt d

instance (cfg : ObjConfig) (evt : String) (tk : ObjTickIn) : Decidable (presentAt cfg evt tk) := by
  unfold presentAt; exact List.decidableBEx _ _

/-- Invariant carried through the per-detection fold of one object-detect
tick.  `st₀` is the state at the start of the tick, `tkdets` the full
detection list of the tick, `acc` the fold accumulator. -/
structure MidInv (cfg : ObjConfig) (now : Int) (st₀ : ObjState) (tkdets : List Detection)
    (acc : ObjAcc) : Prop where
  present_sound : ∀ evt ∈ acc.present, ∃ d ∈ tkdets, qualifies cfg evt d
  present_mon : ∀ evt ∈ acc.present, evt ∈ MONITORED
  fa_new : ∀ evt τ, acc.st.firstAbove evt = some τ →
    st₀.firstAbove evt = some τ ∨ (τ = now ∧ evt ∈ acc.present)
  fa_keep : ∀ evt τ, st₀.firstAbove evt = some τ → acc.st.firstAbove evt = some τ
  lf_new : ∀ evt τ, acc.st.lastFired evt = some τ → st₀.lastFired evt = some τ ∨ τ = now
  lf_keep : ∀ evt, acc.st.lastFired evt = st₀.lastFired evt ∨ acc.st.lastFired evt = some now
  out_fired : ∀ em ∈ acc.out, em.firedAt = now
  out_lf : ∀ em ∈ acc.out, acc.st.lastFired em.evt = some now
  out_fa : ∀ em ∈ acc.out, acc.st.firstAbove em.evt = some (now - em.persistedMs)
  out_present : ∀ em ∈ acc.out, em.evt ∈ acc.present
  out_need : ∀ em ∈ acc.out, (cfg.persistMs em.evt).getD 800 ≤ em.persistedMs
  out_uniq : acc.out.Pairwise (fun a b => a.evt ≠ b.evt)
  out_sep : ∀ em ∈ acc.out, ∀ τ, st₀.lastFired em.evt = some τ → 1500 ≤ em.firedAt - τ

/-- Invariant of the object-detect loop across ticks: `hist` are the ticks
processed so far, `bound` an upper bound on their times, `st` the current
state and `out` the events emitted so far. -/
structure ObjInv (cfg : ObjConfig) (hist : List ObjTickIn) (bound : Int) (st : ObjState)
    (out : List Emission) : Prop where
  fa_window : ∀ evt τ, st.firstAbove evt = some τ →
    ∀ tk ∈ hist, τ ≤ tk.now → presentAt cfg evt tk
  fa_mon : ∀ evt, ¬ evt ∈ MONITORED → st.firstAbove evt = none
  lf_bound : ∀ evt τ, st.lastFired evt = some τ → τ ≤ bound
  lf_dom : ∀ em ∈ out, ∃ τ, st.lastFired em.evt = some τ ∧ em.firedAt ≤ τ
  out_bound : ∀ em ∈ out, em.firedAt ≤ bound
  out_need : ∀ em ∈ out, (cfg.persistMs em.evt).getD 800 ≤ em.persistedMs
  out_window : ∀ em ∈ out, ∀ tk ∈ hist,
    em.firedAt - em.persistedMs ≤ tk.now → tk.now ≤ em.firedAt → presentAt cfg em.evt tk
  out_sep : out.Pairwise (fun a b => a.evt = b.evt → 1500 ≤ b.firedAt - a.firedAt)

/-! ### Face-presence / gaze loop (`src/lib/detect/useFaceFocus.ts`)

One processed tick of `loop` (after the `maxFps` throttle), acting on
`noFaceStartRef`, `awayStartRef` and `lastMultiFaceAtRef`.  `yaw` / `pitch`
are the maxima over the head-yaw / head-pitch blendshape scores computed by
the source; `lookingAway` is `yaw > 0.35 || pitch > 0.35`. -/

/-- One tick's external input to the face loop. -/
structure FaceTickIn where
  now : Int
  n : Nat
  yaw : Rat
  pitch : Rat
deriving DecidableEq

/-- The face loop's timer refs. -/
structure FaceState where
  noFaceStart : Option Int
  awayStart : Option Int
  lastMultiFaceAt : Int

/-- `noFaceStartRef = null`, `awayStartRef = null`, `lastMultiFaceAtRef = 0`. -/
def initFaceState : FaceState := ⟨none, none, 0⟩

/-- An event emitted by the face loop. -/
structure FEmission where
  evt : String
  firedAt : Int
deriving DecidableEq

/-- The `lookingAway` test of the source. -/
def lookingAway (tk : FaceTickIn) : Prop := q035 < tk.yaw ∨ q035 < tk.pitch

instance (tk : FaceTickIn) : Decidable (lookingAway tk) := by
  unfold lookingAway; infer_instance

/-- The `n > 0` tail of the tick: the FOCUS_LOST_5S ("away") logic, reached
with `noFaceStart` already nulled, the updated `lastMultiFaceAt`, and any
MULTIPLE_FACES event already queued in `out0`. -/
def faceAwayPart (awayMs : Int) (tk : FaceTickIn) (awayStart0 : Option Int) (lastMulti : Int)
    (out0 : List FEmission) : FaceState × List FEmission :=
  if lookingAway tk then
    if awayMs ≤ tk.now - awayStart0.getD tk.now then
      (⟨none, some (tk.now + 60000), lastMulti⟩, out0 ++ [⟨"FOCUS_LOST_5S", tk.now⟩])
    else
      (⟨none, some (awayStart0.getD tk.now), lastMulti⟩, out0)
  else
    (⟨none, none, lastMulti⟩, out0)

/-- One processed tick of the face loop.  `n = 0`: run the NO_FACE_10S timer
(on fire, push the timer 60 s into the future) and null the away timer.
`n > 0`: null the no-face timer, fire MULTIPLE_FACES when `n ≥ 2` and its
cooldown has elapsed, then run the away logic. -/
def faceTick (noFaceMs awayMs multiFacesCooldownMs : Int) (tk : FaceTickIn) (s : FaceState) :
    FaceState × List FEmission :=
  if tk.n = 0 then
    if noFaceMs ≤ tk.now - s.noFaceStart.getD tk.now then
      (⟨some (tk.now + 60000), none, s.lastMultiFaceAt⟩, [⟨"NO_FACE_10S", tk.now⟩])
    else
      (⟨some (s.noFaceStart.getD tk.now), none, s.lastMultiFaceAt⟩, [])
  else
    if 2 ≤ tk.n ∧ multiFacesCooldownMs < tk.now - s.lastMultiFaceAt then
      faceAwayPart awayMs tk s.awayStart tk.now [⟨"MULTIPLE_FACES", tk.now⟩]
    else
      faceAwayPart awayMs tk s.awayStart s.lastMultiFaceAt []

/-- Run the face loop over a sequence of processed ticks. -/
def faceRun (noFaceMs awayMs multiFacesCooldownMs : Int) :
    List FaceTickIn → FaceState → FaceState × List FEmission
  | [], s => (s, [])
  | tk :: rest, s =>
    let r1 := faceTick noFaceMs awayMs multiFacesCooldownMs tk s
    let r2 := faceRun noFaceMs awayMs multiFacesCooldownMs rest r1.1
    (r2.1, r1.2 ++ r2.2)

/-- The per-class cooldown window guaranteed by the face loop, used to state
the rate-limit half of the debounce invariant. -/
def faceCd (noFaceMs awayMs multiFacesCooldownMs : Int) (evt : String) : Int :=
  if evt = "NO_FACE_10S" then noFaceMs
  else if evt = "FOCUS_LOST_5S" then awayMs
  else if evt = "MULTIPLE_FACES" then multiFacesCooldownMs
  else 0

/-- Invariant of the face loop across processed ticks: `hist` are the ticks
processed so far, `bound` an upper bound on their times. -/
structure FaceInv (noFaceMs awayMs multiCd : Int) (hist : List FaceTickIn) (bound : Int)
    (s : FaceState) (out : List FEmission) : Prop where
  nfs_window : ∀ τ, s.noFaceStart = some τ → ∀ tk ∈ hist, τ ≤ tk.now → tk.n = 0
  nfs_after : ∀ τ, s.noFaceStart = some τ → ∀ em ∈ out, em.evt = "NO_FACE_10S" →
    em.firedAt < τ
  aws_window : ∀ τ, s.awayStart = some τ → ∀ tk ∈ hist, τ ≤ tk.now →
    tk.n ≠ 0 ∧ lookingAway tk
  aws_after : ∀ τ, s.awayStart = some τ → ∀ em ∈ out, em.evt = "FOCUS_LOST_5S" →
    em.firedAt < τ
  multi_dom : ∀ em ∈ out, em.evt = "MULTIPLE_FACES" → em.firedAt ≤ s.lastMultiFaceAt
  out_bound : ∀ em ∈ out, em.firedAt ≤ bound
  out_nf_window : ∀ em ∈ out, em.evt = "NO_FACE_10S" → ∀ tk ∈ hist,
    em.firedAt - noFaceMs ≤ tk.now → tk.now ≤ em.firedAt → tk.n = 0
  out_aw_window : ∀ em ∈ out, em.evt = "FOCUS_LOST_5S" → ∀ tk ∈ hist,
    em.firedAt - awayMs ≤ tk.now → tk.now ≤ em.firedAt → tk.n ≠ 0 ∧ lookingAway tk
  out_multi_present : ∀ em ∈ out, em.evt = "MULTIPLE_FACES" →
    ∃ tk ∈ hist, tk.now = em.firedAt ∧ 2 ≤ tk.n
  out_sep : out.Pairwise
    (fun a b => a.evt = b.evt → faceCd noFaceMs awayMs multiCd a.evt < b.firedAt - a.firedAt)

/-! ### Event buffer and uplink (`src/app/interview/[id]/page.tsx`)

`bufferRef.current` with `pushEvent` appending, and the 3-second interval
callback: `splice(0, length)` drains the whole buffer, a successful POST
delivers the batch, a failed POST `unshift`s the batch back in front of
whatever was pushed while the request was in flight. -/

/-- What the client sends to the API (`ProctorEventInput` in types.ts). -/
structure ProctorEventInput where
  interviewId : String
  t : Int
  type : String
  confidence : Option Rat
  meta : Option String
  createdAt : Option String
deriving DecidableEq

/-- One step of the buffer's history: an event append from a detector
callback, or one interval firing whose POST succeeds or fails; `during` are
the events pushed while that POST was awaited. -/
inductive BufOp where
  | push (e : ProctorEventInput)
  | flush (ok : Bool) (during : List ProctorEventInput)

/-- Buffer state plus the batches the server has accepted, in order. -/
structure BufState where
  buffer : List ProctorEventInput
  delivered : List (List ProctorEventInput)

/-- Step semantics.  An empty buffer makes the interval callback return
before the request, so its `during` events simply land in the buffer. -/
def bufStep (st : BufState) : BufOp → BufState
  | .push e => ⟨st.buffer ++ [e], st.delivered⟩
  | .flush ok during =>
    if st.buffer.isEmpty then ⟨st.buffer ++ during, st.delivered⟩
    else if ok then ⟨during, st.delivered ++ [st.buffer]⟩
    else ⟨st.buffer ++ during, st.delivered⟩

/-- Run from the initial empty buffer. -/
def bufRun (ops : List BufOp) : BufState :=
  ops.foldl bufStep ⟨[], []⟩

/-- All events appended over a history, in production order. -/
def opEvents : BufOp → List ProctorEventInput
  | .push e => [e]
  | .flush _ during => during

def pushedOf (ops : List BufOp) : List ProctorEventInput :=
  (ops.map opEvents).flatten

/-! ### Session PATCH handler (`src/app/api/interviews/[id]/route.ts`)

The handler parses the JSON body (failure ⇒ 400), builds an `ObjectId` from
the route id (failure ⇒ 400), and otherwise applies the whole body with
`updateOne(..., { $set: patch })` and returns `{ ok: true }` (200). -/

/-- The allow-list named by the specification (recording reference, end time,
candidate name, cached score), with the field names the session store uses.
Stated for the claim; the handler itself consults no such list. -/
def ALLOWED_SESSION_PATCH_FIELDS : List String :=
  ["videoUrl", "endedAt", "candidateName", "integrityScore"]

/-- Mongo `$set` on a document embedded as a field lookup: each patch entry
overwrites its field, later entries winning. -/
def applySet {α : Type} (doc : String → Option α) (patch : List (String × α)) :
    String → Option α :=
  patch.foldl (fun d kv => fun k => if k = kv.1 then some kv.2 else d k) doc

/-- The PATCH handler: `none` body = unparseable JSON (400); invalid id (400);
otherwise `$set` the entire body and answer 200.  Returns (status, document
after the request). -/
def patchHandler {α : Type} (idValid : Bool) (body : Option (List (String × α)))
    (doc : String → Option α) : Nat × (String → Option α) :=
  match body with
  | none => (400, doc)
  | some patch => if idValid then (200, applySet doc patch) else (400, doc)

/-! ### Event-ingestion POST handler (`src/app/api/events/route.ts`) -/

/-- What is stored in MongoDB (`ProctorEventDB` in types.ts, sans `_id`). -/
structure ProctorEventDB where
  interviewId : String
  t : Int
  type : String
  confidence : Option Rat
  meta : Option String
  createdAt : String
deriving DecidableEq

/-- The POST handler for a body that parsed as `{ interviewId, events }` with
`events` an array: reject a falsy (empty) `interviewId` with 400, otherwise
normalize every event — forcing the top-level `interviewId`, defaulting
`createdAt` to the server clock — insert, and report the inserted count. -/
def postEvents (interviewId : String) (events : List ProctorEventInput) (nowIso : String) :
    Except Nat (List ProctorEventDB × Nat) :=
  if interviewId = "" then .error 400
  else
    let docs := events.map fun e =>
      ⟨interviewId, e.t, e.type, e.confidence, e.meta, e.createdAt.getD nowIso⟩
    .ok (docs, docs.length)

/-- Lexicographic order on character lists, used to state the (claimed)
name tie-break of the breakdown sort in a kernel-decidable way. -/
def charListLe : List Char → List Char → Bool
  | [], _ => true
  | _ :: _, [] => false
  | a :: as, b :: bs => if a < b then true else if b < a then false else charListLe as bs

/-- Lexicographic order on event-type names. -/
def typeNameLe (a b : String) : Prop := charListLe a.data b.data = true

instance (a b : String) : Decidable (typeNameLe a b) := by
  unfold typeNameLe; infer_instance

/-- Concrete count maps exercising the tie between `NO_FACE_10S` and
`BOOK_DETECTED` (both deduct 20 at count 4), in the two entry orders. -/
def c8CountsA : CountMap := [("NO_FACE_10S", 4), ("BOOK_DETECTED", 4)]

def c8CountsB : CountMap := [("BOOK_DETECTED", 4), ("NO_FACE_10S", 4)]

/-! ### Concrete inputs used by witnesses and counterexamples -/

/-- The event-type and label strings, named so they can appear in
application position. -/
def evtPhone : String := "PHONE_DETECTED"

def evtNoFace : String := "NO_FACE_10S"

def evtFocusLost : String := "FOCUS_LOST_5S"

def evtMulti : String := "MULTIPLE_FACES"

def fieldFoo : String := "foo"

/-- A cell-phone detection at confidence 0.9. -/
def dPhone : Detection := ⟨"cell phone", some q09⟩

/-- The default object-detect config (no overrides; lookups fall back to the
source defaults 0.7 / 800). -/
def cfg0 : ObjConfig := ⟨fun _ => none, fun _ => none⟩

/-- Phone held above threshold at 100000, 100400, 100800 ms: continuously
above threshold for exactly the 800 ms persistence window. -/
def trHold : List ObjTickIn := [⟨100000, [dPhone]⟩, ⟨100400, [dPhone]⟩, ⟨100800, [dPhone]⟩]

/-- Phone present, interrupted just before 800 ms elapse, then present
again: the persistence timer must restart. -/
def trFlicker : List ObjTickIn :=
  [⟨100000, [dPhone]⟩, ⟨100700, []⟩, ⟨101200, [dPhone]⟩, ⟨101500, [dPhone]⟩]

/-- Phone present at 0 and at 1600: the second tick fires. -/
def trFire : List ObjTickIn := [⟨0, [dPhone]⟩, ⟨1600, [dPhone]⟩]

/-- The loop state after one tick of `trFire` (phone first seen at 0). -/
def stAfter0 : ObjState := (objRun cfg0 [⟨0, [dPhone]⟩] initObjState).1

/-- A face-loop trace: no face for one tick, then two faces looking away. -/
def ftr0 : List FaceTickIn := [⟨1000, 0, 0, 0⟩, ⟨12000, 2, qHalf, 0⟩]

/-- Events at offsets 1000 ms and 125000 ms (scenario D). -/
def evD : List EventRow :=
  [⟨"i1", 1000, "NO_FACE_10S", none, none, "c"⟩,
   ⟨"i1", 125000, "NO_FACE_10S", none, none, "c"⟩]

/-- A client-side timestamp for the ingestion witness. -/
def isoT1 : String := "2025-01-01T00:00:01Z"

/-- A two-event batch for the ingestion witness; the first event carries a
bogus per-event `interviewId` and no `createdAt`. -/
def evBatch : List ProctorEventInput :=
  [⟨"zzz", 5, "PHONE_DETECTED", some q09, none, none⟩,
   ⟨"zzz", 70, "NO_FACE_10S", none, none, some isoT1⟩]

/-! ## Helper lemmas -/

theorem lookup_mem {α β : Type} [BEq α] [LawfulBEq α] :
    ∀ {l : List (α × β)} {k : α} {v : β}, l.lookup k = some v → (k, v) ∈ l := by
  intro l
  induction l with
  | nil => intro k v h; simp [List.lookup] at h
  | cons p rest ih =>
    intro k v h
    rw [List.lookup] at h
    by_cases hk : k == p.1
    · simp only [hk] at h
      have hk' : k = p.1 := eq_of_beq hk
      refine List.mem_cons.mpr (Or.inl ?_)
      cases p
      simp_all
    · simp only [hk] at h
      exact List.mem_cons_of_mem _ (ih h)

theorem rules_nonneg : ∀ p ∈ RULES, 0 ≤ p.2.1 ∧ 0 ≤ p.2.2 := by decide

theorem rules_lookup_nonneg {ty : String} {per cap : Int}
    (h : RULES.lookup ty = some (per, cap)) : 0 ≤ per ∧ 0 ≤ cap :=
  rules_nonneg _ (lookup_mem h)

theorem scoreStep_none (acc : Int × List BreakdownRow) (entry : String × Nat)
    (h : RULES.lookup entry.1 = none) : scoreStep acc entry = acc := by
  unfold scoreStep; rw [h]

theorem scoreStep_some (acc : Int × List BreakdownRow) (entry : String × Nat)
    (per cap : Int) (h : RULES.lookup entry.1 = some (per, cap)) :
    scoreStep acc entry =
      (max 0 (acc.1 - min (per * (entry.2 : Int)) cap),
       acc.2 ++ [⟨entry.1, entry.2, min (per * (entry.2 : Int)) cap⟩]) := by
  unfold scoreStep; rw [h]

theorem deduct_nonneg {ty : String} {per cap : Int} (n : Nat)
    (h : RULES.lookup ty = some (per, cap)) : (0 : Int) ≤ min (per * (n : Int)) cap := by
  have hnn := rules_lookup_nonneg h
  exact le_min (mul_nonneg hnn.1 (by exact_mod_cast Nat.zero_le _)) hnn.2

theorem scoreStep_fst_nonneg (acc : Int × List BreakdownRow) (entry : String × Nat)
    (h : 0 ≤ acc.1) : 0 ≤ (scoreStep acc entry).1 := by
  cases hl : RULES.lookup entry.1 with
  | none => rw [scoreStep_none acc entry hl]; exact h
  | some r =>
    cases r with
    | mk per cap => rw [scoreStep_some acc entry per cap hl]; exact le_max_left _ _

theorem scoreStep_fst_le (acc : Int × List BreakdownRow) (entry : String × Nat)
    (h : 0 ≤ acc.1) : (scoreStep acc entry).1 ≤ acc.1 := by
  cases hl : RULES.lookup entry.1 with
  | none => rw [scoreStep_none acc entry hl]
  | some r =>
    cases r with
    | mk per cap =>
      rw [scoreStep_some acc entry per cap hl]
      have hd := deduct_nonneg entry.2 hl
      simp only [max_le_iff]
      omega

theorem scoreFold_fst_bounds :
    ∀ (counts : CountMap) (s : Int) (bd : List BreakdownRow), 0 ≤ s →
      0 ≤ (counts.foldl scoreStep (s, bd)).1 ∧ (counts.foldl scoreStep (s, bd)).1 ≤ s := by
  intro counts
  induction counts with
  | nil =>
    intro s bd h
    exact ⟨by simpa using h, by simp⟩
  | cons entry rest ih =>
    intro s bd h
    rw [List.foldl_cons]
    have h1 := scoreStep_fst_nonneg (s, bd) entry h
    have h2 := scoreStep_fst_le (s, bd) entry h
    obtain ⟨ha, hb⟩ := ih (scoreStep (s, bd) entry).1 (scoreStep (s, bd) entry).2 h1
    rw [show ((scoreStep (s, bd) entry).1, (scoreStep (s, bd) entry).2) =
        scoreStep (s, bd) entry from rfl] at ha hb
    exact ⟨ha, le_trans hb h2⟩

theorem claimStepC2_none (s : Int) (entry : String × Nat)
    (h : RULES.lookup entry.1 = none) : claimStepC2 s entry = s := by
  unfold claimStepC2; rw [h]

theorem claimStepC2_some (s : Int) (entry : String × Nat) (per cap : Int)
    (h : RULES.lookup entry.1 = some (per, cap)) :
    claimStepC2 s entry =
      if entry.2 ≠ 0 then max 0 (s - min (per * (entry.2 : Int)) cap) else s := by
  unfold claimStepC2; rw [h]

theorem scoreFold_eq_claim :
    ∀ (counts : CountMap) (s : Int) (bd : List BreakdownRow), 0 ≤ s →
      (counts.foldl scoreStep (s, bd)).1 = counts.foldl claimStepC2 s := by
  intro counts
  induction counts with
  | nil => intro s bd _; rfl
  | cons entry rest ih =>
    intro s bd hs
    rw [List.foldl_cons, List.foldl_cons]
    cases hl : RULES.lookup entry.1 with
    | none =>
      rw [scoreStep_none (s, bd) entry hl, claimStepC2_none s entry hl]
      exact ih s bd hs
    | some r =>
      cases r with
      | mk per cap =>
        rw [scoreStep_some (s, bd) entry per cap hl, claimStepC2_some s entry per cap hl]
        by_cases hz : entry.2 = 0
        · rw [if_neg (by simpa using hz)]
          have hcap := (rules_lookup_nonneg hl).2
          have hfloor : max 0 (s - min (per * ((entry.2 : Nat) : Int)) cap) = s := by
            rw [hz]
            simp only [Nat.cast_zero, mul_zero]
            rw [min_eq_left hcap]
            omega
          rw [hfloor]
          exact ih s _ hs
        · rw [if_pos hz]
          exact ih _ _ (le_max_left _ _)

theorem scoreFold_rows_capped :
    ∀ (counts : CountMap) (s : Int) (bd : List BreakdownRow),
      ∀ row ∈ (counts.foldl scoreStep (s, bd)).2,
        row ∈ bd ∨ ∃ per cap, RULES.lookup row.type = some (per, cap) ∧
          row.deduct = min (per * (row.times : Int)) cap ∧ row.deduct ≤ cap := by
  intro counts
  induction counts with
  | nil => intro s bd row hrow; exact Or.inl hrow
  | cons entry rest ih =>
    intro s bd row hrow
    rw [List.foldl_cons] at hrow
    cases hl : RULES.lookup entry.1 with
    | none =>
      rw [scoreStep_none (s, bd) entry hl] at hrow
      exact ih s bd row hrow
    | some r =>
      cases r with
      | mk per cap =>
        rw [scoreStep_some (s, bd) entry per cap hl] at hrow
        rcases ih _ _ row hrow with hin | hfound
        · simp only [List.mem_append, List.mem_singleton] at hin
          rcases hin with hin | hin
          · exact Or.inl hin
          · subst hin
            exact Or.inr ⟨per, cap, hl, rfl, min_le_right _ _⟩
        · exact Or.inr hfound

theorem insertRowDesc_perm (x : BreakdownRow) :
    ∀ l : List BreakdownRow, (insertRowDesc x l).Perm (x :: l) := by
  intro l
  induction l with
  | nil => simp [insertRowDesc]
  | cons y ys ih =>
    unfold insertRowDesc
    by_cases h : x.deduct ≤ y.deduct
    · simp only [if_pos h]
      exact (ih.cons y).trans (List.Perm.swap x y ys)
    · simp [if_neg h]

theorem insertRowDesc_sorted (x : BreakdownRow) :
    ∀ l : List BreakdownRow, l.Pairwise (fun a b => b.deduct ≤ a.deduct) →
      (insertRowDesc x l).Pairwise (fun a b => b.deduct ≤ a.deduct) := by
  intro l
  induction l with
  | nil => intro _; simp [insertRowDesc]
  | cons y ys ih =>
    intro hp
    rw [List.pairwise_cons] at hp
    unfold insertRowDesc
    by_cases h : x.deduct ≤ y.deduct
    · simp only [if_pos h]
      rw [List.pairwise_cons]
      constructor
      · intro z hz
        rcases List.mem_cons.mp ((insertRowDesc_perm x ys).mem_iff.mp hz) with h1 | h1
        · rw [h1]; exact h
        · exact hp.1 z h1
      · exact ih hp.2
    · simp only [if_neg h]
      rw [List.pairwise_cons]
      refine ⟨?_, List.pairwise_cons.mpr hp⟩
      intro z hz
      rcases List.mem_cons.mp hz with h1 | h1
      · rw [h1]; omega
      · have := hp.1 z h1; omega

theorem sortRowsDesc_aux_perm :
    ∀ (l acc : List BreakdownRow),
      (l.foldl (fun a x => insertRowDesc x a) acc).Perm (acc ++ l) := by
  intro l
  induction l with
  | nil => intro acc; simp
  | cons x xs ih =>
    intro acc
    rw [List.foldl_cons]
    exact (ih _).trans (((insertRowDesc_perm x acc).append_right xs).trans
      (@List.perm_middle _ x acc xs).symm)

theorem sortRowsDesc_aux_sorted :
    ∀ (l acc : List BreakdownRow), acc.Pairwise (fun a b => b.deduct ≤ a.deduct) →
      (l.foldl (fun a x => insertRowDesc x a) acc).Pairwise (fun a b => b.deduct ≤ a.deduct) := by
  intro l
  induction l with
  | nil => intro acc h; simpa using h
  | cons x xs ih =>
    intro acc h
    rw [List.foldl_cons]
    exact ih _ (insertRowDesc_sorted x acc h)

theorem sortRowsDesc_perm (l : List BreakdownRow) : (sortRowsDesc l).Perm l := by
  unfold sortRowsDesc
  simpa using sortRowsDesc_aux_perm l []

theorem sortRowsDesc_sorted (l : List BreakdownRow) :
    (sortRowsDesc l).Pairwise (fun a b => b.deduct ≤ a.deduct) := by
  unfold sortRowsDesc
  exact sortRowsDesc_aux_sorted l [] (by simp)

theorem lastT_eq_maxT :
    ∀ events : List EventRow, events.Pairwise (fun a b => a.t ≤ b.t) →
      (∀ ev ∈ events, 0 ≤ ev.t) →
      (match events.getLast? with
       | some ev => ev.t
       | none => 0) = events.foldr (fun ev m => max ev.t m) 0 := by
  intro events
  induction events with
  | nil => intro _ _; rfl
  | cons x xs ih =>
    intro hp hnn
    rw [List.pairwise_cons] at hp
    cases xs with
    | nil =>
      simp only [List.getLast?_singleton, List.foldr]
      have := hnn x (by simp)
      omega
    | cons y ys =>
      have htail := ih hp.2 (fun ev hev => hnn ev (List.mem_cons_of_mem x hev))
      rw [List.getLast?_cons_cons, htail]
      simp only [List.foldr_cons]
      have hxy : x.t ≤ y.t := hp.1 y (by simp)
      have hyle : y.t ≤ (y :: ys).foldr (fun ev m => max ev.t m) 0 := by
        simp only [List.foldr_cons]
        exact le_max_left _ _
      simp only [List.foldr_cons] at hyle
      omega

theorem bufStep_content (st : BufState) (op : BufOp) :
    (bufStep st op).delivered.flatten ++ (bufStep st op).buffer =
      (st.delivered.flatten ++ st.buffer) ++ opEvents op := by
  cases op with
  | push e => simp [bufStep, opEvents]
  | flush ok during =>
    by_cases hb : st.buffer.isEmpty
    · have : st.buffer = [] := List.isEmpty_iff.mp hb
      simp [bufStep, hb, opEvents, this]
    · cases ok with
      | false => simp [bufStep, hb, opEvents]
      | true => simp [bufStep, hb, opEvents]

theorem bufFold_content :
    ∀ (ops : List BufOp) (st : BufState),
      (ops.foldl bufStep st).delivered.flatten ++ (ops.foldl bufStep st).buffer =
        (st.delivered.flatten ++ st.buffer) ++ pushedOf ops := by
  intro ops
  induction ops with
  | nil => intro st; simp [pushedOf]
  | cons op rest ih =>
    intro st
    rw [List.foldl_cons]
    rw [ih (bufStep st op), bufStep_content st op]
    simp [pushedOf, List.append_assoc]

theorem bufRun_content (ops : List BufOp) :
    (bufRun ops).delivered.flatten ++ (bufRun ops).buffer = pushedOf ops := by
  unfold bufRun
  simpa using bufFold_content ops ⟨[], []⟩

theorem applySet_lookup {α : Type} :
    ∀ (patch : List (String × α)) (doc : String → Option α) (k : String),
      applySet doc patch k =
        (match (patch.filter (fun kv => kv.1 == k)).getLast? with
         | some kv => some kv.2
         | none => doc k) := by
  intro patch
  induction patch with
  | nil => intro doc k; rfl
  | cons kv rest ih =>
    intro doc k
    have hstep : applySet doc (kv :: rest) k =
        applySet (fun q => if q = kv.1 then some kv.2 else doc q) rest k := rfl
    rw [hstep, ih]
    by_cases hk : kv.1 = k
    · have hfil : (kv :: rest).filter (fun q => q.1 == k) =
          kv :: rest.filter (fun q => q.1 == k) := by
        simp [List.filter_cons, hk]
      rw [hfil]
      cases hfr : rest.filter (fun q => q.1 == k) with
      | nil =>
        simp only [List.getLast?_singleton]
        simp [hk]
      | cons a l =>
        rw [List.getLast?_cons_cons]
        cases hgl : (a :: l).getLast? with
        | none => exact absurd hgl (by simp)
        | some b => rfl
    · have hfil : (kv :: rest).filter (fun q => q.1 == k) =
          rest.filter (fun q => q.1 == k) := by
        simp [List.filter_cons, hk]
      rw [hfil]
      cases hfr : rest.filter (fun q => q.1 == k) with
      | nil =>
        have hne : k ≠ kv.1 := fun h => hk h.symm
        simp [hne]
      | cons a l =>
        cases hgl : (a :: l).getLast? with
        | none => exact absurd hgl (by simp)
        | some b => rfl

theorem setFA_fa (st : ObjState) (evt : String) (v : Option Int) (k : String) :
    (setFA st evt v).firstAbove k = if k = evt then v else st.firstAbove k := rfl

theorem setFA_lf (st : ObjState) (evt : String) (v : Option Int) :
    (setFA st evt v).lastFired = st.lastFired := rfl

theorem setLF_lf (st : ObjState) (evt : String) (v : Option Int) (k : String) :
    (setLF st evt v).lastFired k = if k = evt then v else st.lastFired k := rfl

theorem setLF_fa (st : ObjState) (evt : String) (v : Option Int) :
    (setLF st evt v).firstAbove = st.firstAbove := rfl

theorem classToEvent_mon {c evt : String} (h : CLASS_TO_EVENT c = some evt) :
    evt ∈ MONITORED := by
  unfold CLASS_TO_EVENT at h
  by_cases hc : c = "cell phone"
  · rw [if_pos hc] at h
    simp only [Option.some.injEq] at h
    rw [← h]
    decide
  · rw [if_neg hc] at h
    cases h

theorem objProcessDet_skip1 (cfg : ObjConfig) (now : Int) (acc : ObjAcc) (d : Detection)
    (h : CLASS_TO_EVENT d.cls = none) : objProcessDet cfg now acc d = acc := by
  unfold objProcessDet; rw [h]

theorem objProcessDet_skip2 (cfg : ObjConfig) (now : Int) (acc : ObjAcc) (d : Detection)
    (evt : String) (h : CLASS_TO_EVENT d.cls = some evt)
    (hc : d.score.getD 0 < (cfg.minConf evt).getD q07) :
    objProcessDet cfg now acc d = acc := by
  unfold objProcessDet
  rw [h]
  simp only [if_pos hc]

theorem objProcessDet_eq (cfg : ObjConfig) (now : Int) (acc : ObjAcc) (d : Detection)
    (evt : String) (h : CLASS_TO_EVENT d.cls = some evt)
    (hc : ¬ d.score.getD 0 < (cfg.minConf evt).getD q07) :
    objProcessDet cfg now acc d =
      if (cfg.persistMs evt).getD 800 ≤ now - (acc.st.firstAbove evt).getD now ∧
         1500 ≤ now - (acc.st.lastFired evt).getD 0 then
        ⟨evt :: acc.present,
         setLF (setFA acc.st evt (some ((acc.st.firstAbove evt).getD now))) evt (some now),
         acc.out ++ [⟨evt, now, now - (acc.st.firstAbove evt).getD now⟩]⟩
      else
        ⟨evt :: acc.present, setFA acc.st evt (some ((acc.st.firstAbove evt).getD now)),
         acc.out⟩ := by
  unfold objProcessDet
  rw [h]
  simp only [if_neg hc]
  rfl

theorem midInv_init (cfg : ObjConfig) (now : Int) (st₀ : ObjState) (tkdets : List Detection) :
    MidInv cfg now st₀ tkdets ⟨[], st₀, []⟩ := by
  refine ⟨?_, ?_, ?_, ?_, ?_, ?_, ?_, ?_, ?_, ?_, ?_, ?_, ?_⟩
  · intro evt he; cases he
  · intro evt he; cases he
  · intro evt τ hf; exact Or.inl hf
  · intro evt τ hf; exact hf
  · intro evt τ hl; exact Or.inl hl
  · intro evt; exact Or.inl rfl
  · intro em hem; cases hem
  · intro em hem; cases hem
  · intro em hem; cases hem
  · intro em hem; cases hem
  · intro em hem; cases hem
  · exact List.Pairwise.nil
  · intro em hem; cases hem

theorem midInv_step (cfg : ObjConfig) (now : Int) (st₀ : ObjState) (tkdets : List Detection)
    (acc : ObjAcc) (d : Detection) (hd : d ∈ tkdets)
    (h : MidInv cfg now st₀ tkdets acc) :
    MidInv cfg now st₀ tkdets (objProcessDet cfg now acc d) := by
  cases hcls : CLASS_TO_EVENT d.cls with
  | none => rw [objProcessDet_skip1 cfg now acc d hcls]; exact h
  | some evt =>
    by_cases hc : d.score.getD 0 < (cfg.minConf evt).getD q07
    · rw [objProcessDet_skip2 cfg now acc d evt hcls hc]; exact h
    · rw [objProcessDet_eq cfg now acc d evt hcls hc]
      have hq : qualifies cfg evt d := ⟨hcls, hc⟩
      have hmon : evt ∈ MONITORED := classToEvent_mon hcls
      by_cases hfire : (cfg.persistMs evt).getD 800 ≤ now - (acc.st.firstAbove evt).getD now ∧
          1500 ≤ now - (acc.st.lastFired evt).getD 0
      · rw [if_pos hfire]
        have hNF : ∀ em ∈ acc.out, em.evt ≠ evt := by
          intro em hem heq
          have hlf := h.out_lf em hem
          rw [heq] at hlf
          rw [hlf] at hfire
          have := hfire.2
          simp only [Option.getD_some] at this
          omega
        refine ⟨?_, ?_, ?_, ?_, ?_, ?_, ?_, ?_, ?_, ?_, ?_, ?_, ?_⟩
        · intro e he
          rcases List.mem_cons.mp he with he | he
          · rw [he]; exact ⟨d, hd, hq⟩
          · exact h.present_sound e he
        · intro e he
          rcases List.mem_cons.mp he with he | he
          · rw [he]; exact hmon
          · exact h.present_mon e he
        · intro e τ hfae
          simp only [setLF_fa, setFA_fa] at hfae
          by_cases he : e = evt
          · rw [if_pos he] at hfae
            simp only [Option.some.injEq] at hfae
            cases hfa0 : acc.st.firstAbove evt with
            | none =>
              rw [hfa0] at hfae
              simp only [Option.getD_none] at hfae
              exact Or.inr ⟨hfae.symm, by rw [he]; exact List.mem_cons_self _ _⟩
            | some t =>
              rw [hfa0] at hfae
              simp only [Option.getD_some] at hfae
              rw [he, ← hfae]
              rcases h.fa_new evt t hfa0 with hl | hr
              · exact Or.inl hl
              · exact Or.inr ⟨hr.1, List.mem_cons_of_mem _ hr.2⟩
          · rw [if_neg he] at hfae
            rcases h.fa_new e τ hfae with hl | hr
            · exact Or.inl hl
            · exact Or.inr ⟨hr.1, List.mem_cons_of_mem _ hr.2⟩
        · intro e τ h0
          have hacc := h.fa_keep e τ h0
          simp only [setLF_fa, setFA_fa]
          by_cases he : e = evt
          · rw [if_pos he]
            rw [he] at hacc
            rw [hacc]
            simp
          · rw [if_neg he]
            exact hacc
        · intro e τ hl
          simp only [setLF_lf, setFA_lf] at hl
          by_cases he : e = evt
          · rw [if_pos he] at hl
            simp only [Option.some.injEq] at hl
            exact Or.inr hl.symm
          · rw [if_neg he] at hl
            exact h.lf_new e τ hl
        · intro e
          by_cases he : e = evt
          · refine Or.inr ?_
            simp only [setLF_lf, setFA_lf, if_pos he]
          · rcases h.lf_keep e with hl | hr
            · refine Or.inl ?_
              simp only [setLF_lf, setFA_lf, if_neg he]
              exact hl
            · refine Or.inr ?_
              simp only [setLF_lf, setFA_lf, if_neg he]
              exact hr
        · intro em hem
          rcases List.mem_append.mp hem with hem | hem
          · exact h.out_fired em hem
          · rw [List.mem_singleton.mp hem]
        · intro em hem
          rcases List.mem_append.mp hem with hem | hem
          · have hne := hNF em hem
            simp only [setLF_lf, setFA_lf, if_neg hne]
            exact h.out_lf em hem
          · rw [List.mem_singleton.mp hem]
            simp [setLF_lf, setFA_lf]
        · intro em hem
          rcases List.mem_append.mp hem with hem | hem
          · have hne := hNF em hem
            simp only [setLF_fa, setFA_fa, if_neg hne]
            exact h.out_fa em hem
          · rw [List.mem_singleton.mp hem]
            simp only [setLF_fa, setFA_fa, if_true, eq_self_iff_true, if_pos, Option.some.injEq]
            omega
        · intro em hem
          rcases List.mem_append.mp hem with hem | hem
          · exact List.mem_cons_of_mem _ (h.out_present em hem)
          · rw [List.mem_singleton.mp hem]
            exact List.mem_cons_self _ _
        · intro em hem
          rcases List.mem_append.mp hem with hem | hem
          · exact h.out_need em hem
          · rw [List.mem_singleton.mp hem]
            exact hfire.1
        · rw [List.pairwise_append]
          refine ⟨h.out_uniq, List.pairwise_singleton _ _, ?_⟩
          intro a ha b hb
          rw [List.mem_singleton.mp hb]
          exact hNF a ha
        · intro em hem τ hτ
          rcases List.mem_append.mp hem with hem | hem
          · exact h.out_sep em hem τ hτ
          · rw [List.mem_singleton.mp hem]
            rw [List.mem_singleton.mp hem] at hτ
            simp only at hτ ⊢
            rcases h.lf_keep evt with hl | hr
            · rw [hτ] at hl
              rw [hl] at hfire
              simpa using hfire.2
            · rw [hr] at hfire
              have := hfire.2
              simp only [Option.getD_some] at this
              omega
      · rw [if_neg hfire]
        refine ⟨?_, ?_, ?_, ?_, ?_, ?_, ?_, ?_, ?_, ?_, ?_, ?_, ?_⟩
        · intro e he
          rcases List.mem_cons.mp he with he | he
          · rw [he]; exact ⟨d, hd, hq⟩
          · exact h.present_sound e he
        · intro e he
          rcases List.mem_cons.mp he with he | he
          · rw [he]; exact hmon
          · exact h.present_mon e he
        · intro e τ hfae
          simp only [setFA_fa] at hfae
          by_cases he : e = evt
          · rw [if_pos he] at hfae
            simp only [Option.some.injEq] at hfae
            cases hfa0 : acc.st.firstAbove evt with
            | none =>
              rw [hfa0] at hfae
              simp only [Option.getD_none] at hfae
              exact Or.inr ⟨hfae.symm, by rw [he]; exact List.mem_cons_self _ _⟩
            | some t =>
              rw [hfa0] at hfae
              simp only [Option.getD_some] at hfae
              rw [he, ← hfae]
              rcases h.fa_new evt t hfa0 with hl | hr
              · exact Or.inl hl
              · exact Or.inr ⟨hr.1, List.mem_cons_of_mem _ hr.2⟩
          · rw [if_neg he] at hfae
            rcases h.fa_new e τ hfae with hl | hr
            · exact Or.inl hl
            · exact Or.inr ⟨hr.1, List.mem_cons_of_mem _ hr.2⟩
        · intro e τ h0
          have hacc := h.fa_keep e τ h0
          simp only [setFA_fa]
          by_cases he : e = evt
          · rw [if_pos he]
            rw [he] at hacc
            rw [hacc]
            simp
          · rw [if_neg he]
            exact hacc
        · intro e τ hl
          simp only [setFA_lf] at hl
          exact h.lf_new e τ hl
        · intro e
          simp only [setFA_lf]
          exact h.lf_keep e
        · exact h.out_fired
        · intro em hem
          simp only [setFA_lf]
          exact h.out_lf em hem
        · intro em hem
          simp only [setFA_fa]
          by_cases he : em.evt = evt
          · rw [if_pos he]
            have hfa := h.out_fa em hem
            rw [he] at hfa
            rw [hfa]
            simp
          · rw [if_neg he]
            exact h.out_fa em hem
        · intro em hem
          exact List.mem_cons_of_mem _ (h.out_present em hem)
        · exact h.out_need
        · exact h.out_uniq
        · exact h.out_sep

theorem midInv_fold (cfg : ObjConfig) (now : Int) (st₀ : ObjState) (tkdets : List Detection) :
    ∀ (ds : List Detection) (acc : ObjAcc), (∀ d ∈ ds, d ∈ tkdets) →
      MidInv cfg now st₀ tkdets acc →
      MidInv cfg now st₀ tkdets (ds.foldl (objProcessDet cfg now) acc) := by
  intro ds
  induction ds with
  | nil => intro acc _ h; exact h
  | cons d rest ih =>
    intro acc hsub h
    rw [List.foldl_cons]
    exact ih _ (fun x hx => hsub x (List.mem_cons_of_mem d hx))
      (midInv_step cfg now st₀ tkdets acc d (hsub d (List.mem_cons_self d rest)) h)

theorem objTick_fst_fa (cfg : ObjConfig) (now : Int) (dets : List Detection) (st : ObjState)
    (k : String) :
    (objTick cfg now dets st).1.firstAbove k =
      if k ∈ MONITORED ∧ ¬ k ∈ (dets.foldl (objProcessDet cfg now) ⟨[], st, []⟩).present then none
      else (dets.foldl (objProcessDet cfg now) ⟨[], st, []⟩).st.firstAbove k := rfl

theorem objTick_fst_lf (cfg : ObjConfig) (now : Int) (dets : List Detection) (st : ObjState) :
    (objTick cfg now dets st).1.lastFired =
      (dets.foldl (objProcessDet cfg now) ⟨[], st, []⟩).st.lastFired := rfl

theorem objTick_snd (cfg : ObjConfig) (now : Int) (dets : List Detection) (st : ObjState) :
    (objTick cfg now dets st).2 = (dets.foldl (objProcessDet cfg now) ⟨[], st, []⟩).out := rfl

theorem objInv_init (cfg : ObjConfig) (bound : Int) : ObjInv cfg [] bound initObjState [] := by
  refine ⟨?_, ?_, ?_, ?_, ?_, ?_, ?_, ?_⟩
  · intro evt τ hfa; cases hfa
  · intro evt _; rfl
  · intro evt τ hl; cases hl
  · intro em hem; cases hem
  · intro em hem; cases hem
  · intro em hem; cases hem
  · intro em hem; cases hem
  · exact List.Pairwise.nil

theorem objTick_inv (cfg : ObjConfig) (hist : List ObjTickIn) (bound : Int) (st : ObjState)
    (out : List Emission) (now : Int) (dets : List Detection)
    (hinv : ObjInv cfg hist bound st out)
    (hhist : ∀ tk ∈ hist, tk.now ≤ bound)
    (hnow : bound < now) :
    ObjInv cfg (hist ++ [⟨now, dets⟩]) now (objTick cfg now dets st).1
      (out ++ (objTick cfg now dets st).2) ∧
    ∀ tk ∈ hist ++ [(⟨now, dets⟩ : ObjTickIn)], tk.now ≤ now := by
  have hm : MidInv cfg now st dets (dets.foldl (objProcessDet cfg now) ⟨[], st, []⟩) :=
    midInv_fold cfg now st dets dets ⟨[], st, []⟩ (fun d hd => hd)
      (midInv_init cfg now st dets)
  constructor
  · refine ⟨?_, ?_, ?_, ?_, ?_, ?_, ?_, ?_⟩
    · intro evt τ hfa tk htk hτ
      rw [objTick_fst_fa] at hfa
      by_cases hcond : evt ∈ MONITORED ∧
          ¬ evt ∈ (dets.foldl (objProcessDet cfg now) ⟨[], st, []⟩).present
      · rw [if_pos hcond] at hfa; cases hfa
      · rw [if_neg hcond] at hfa
        have hmonpre : evt ∈ MONITORED := by
          by_contra hnm
          rcases hm.fa_new evt τ hfa with hl | hr
          · rw [hinv.fa_mon evt hnm] at hl; cases hl
          · exact hnm (hm.present_mon evt hr.2)
        have hpres : evt ∈ (dets.foldl (objProcessDet cfg now) ⟨[], st, []⟩).present := by
          by_contra hnp
          exact hcond ⟨hmonpre, hnp⟩
        rcases List.mem_append.mp htk with htk | htk
        · rcases hm.fa_new evt τ hfa with hl | hr
          · exact hinv.fa_window evt τ hl tk htk hτ
          · exfalso
            have hb := hhist tk htk
            have hr1 := hr.1
            omega
        · rw [List.mem_singleton.mp htk]
          obtain ⟨d, hd, hq⟩ := hm.present_sound evt hpres
          exact ⟨d, hd, hq⟩
    · intro evt hnm
      rw [objTick_fst_fa]
      rw [if_neg (fun hcond => hnm hcond.1)]
      cases hfa : (dets.foldl (objProcessDet cfg now) ⟨[], st, []⟩).st.firstAbove evt with
      | none => rfl
      | some τ =>
        rcases hm.fa_new evt τ hfa with hl | hr
        · rw [hinv.fa_mon evt hnm] at hl; cases hl
        · exact absurd (hm.present_mon evt hr.2) hnm
    · intro evt τ hl
      rw [objTick_fst_lf] at hl
      rcases hm.lf_new evt τ hl with h0 | h0
      · have := hinv.lf_bound evt τ h0; omega
      · omega
    · intro em hem
      rcases List.mem_append.mp hem with hem | hem
      · obtain ⟨τ, hτ, hle⟩ := hinv.lf_dom em hem
        rcases hm.lf_keep em.evt with hk | hk
        · exact ⟨τ, by rw [objTick_fst_lf, hk]; exact hτ, hle⟩
        · refine ⟨now, by rw [objTick_fst_lf]; exact hk, ?_⟩
          have := hinv.out_bound em hem
          omega
      · rw [objTick_snd] at hem
        exact ⟨now, by rw [objTick_fst_lf]; exact hm.out_lf em hem,
          le_of_eq (hm.out_fired em hem)⟩
    · intro em hem
      rcases List.mem_append.mp hem with hem | hem
      · have := hinv.out_bound em hem; omega
      · rw [objTick_snd] at hem
        exact le_of_eq (hm.out_fired em hem)
    · intro em hem
      rcases List.mem_append.mp hem with hem | hem
      · exact hinv.out_need em hem
      · rw [objTick_snd] at hem
        exact hm.out_need em hem
    · intro em hem tk htk h1 h2
      rcases List.mem_append.mp hem with hem | hem
      · rcases List.mem_append.mp htk with htk | htk
        · exact hinv.out_window em hem tk htk h1 h2
        · exfalso
          have htkn : tk.now = now := by rw [List.mem_singleton.mp htk]
          have := hinv.out_bound em hem
          omega
      · rw [objTick_snd] at hem
        have hfired := hm.out_fired em hem
        have hfa := hm.out_fa em hem
        rcases List.mem_append.mp htk with htk | htk
        · rcases hm.fa_new em.evt (now - em.persistedMs) hfa with hl | hr
          · refine hinv.fa_window em.evt (now - em.persistedMs) hl tk htk ?_
            rw [hfired] at h1
            exact h1
          · exfalso
            have hb := hhist tk htk
            have hr1 := hr.1
            rw [hfired] at h1
            omega
        · rw [List.mem_singleton.mp htk]
          obtain ⟨d, hd, hq⟩ := hm.present_sound em.evt (hm.out_present em hem)
          exact ⟨d, hd, hq⟩
    · rw [List.pairwise_append]
      refine ⟨hinv.out_sep, ?_, ?_⟩
      · rw [objTick_snd]
        exact hm.out_uniq.imp (fun hne heq => absurd heq hne)
      · intro a ha b hb heq
        rw [objTick_snd] at hb
        obtain ⟨τ, hτ, hle⟩ := hinv.lf_dom a ha
        have hsep := hm.out_sep b hb τ (by rw [← heq]; exact hτ)
        omega
  · intro tk htk
    rcases List.mem_append.mp htk with htk | htk
    · have := hhist tk htk; omega
    · rw [List.mem_singleton.mp htk]

theorem objRun_inv (cfg : ObjConfig) :
    ∀ (trace : List ObjTickIn) (st : ObjState) (out : List Emission) (hist : List ObjTickIn)
      (bound : Int),
      ObjInv cfg hist bound st out →
      (∀ tk ∈ hist, tk.now ≤ bound) →
      List.Chain (fun a b => a < b) bound (trace.map ObjTickIn.now) →
      ∃ bound2,
        ObjInv cfg (hist ++ trace) bound2 (objRun cfg trace st).1
          (out ++ (objRun cfg trace st).2) ∧
        ∀ tk ∈ hist ++ trace, tk.now ≤ bound2 := by
  intro trace
  induction trace with
  | nil =>
    intro st out hist bound hinv hhist _
    refine ⟨bound, ?_, by simpa using hhist⟩
    show ObjInv cfg (hist ++ []) bound st (out ++ [])
    simpa using hinv
  | cons tk rest ih =>
    intro st out hist bound hinv hhist hchain
    rw [List.map_cons] at hchain
    rw [List.chain_cons] at hchain
    obtain ⟨hlt, hchain2⟩ := hchain
    obtain ⟨hinv2, hhist2⟩ := objTick_inv cfg hist bound st out tk.now tk.dets hinv hhist hlt
    have htketa : (⟨tk.now, tk.dets⟩ : ObjTickIn) = tk := rfl
    rw [htketa] at hinv2 hhist2
    obtain ⟨bound2, hinv3, hhist3⟩ :=
      ih (objTick cfg tk.now tk.dets st).1 (out ++ (objTick cfg tk.now tk.dets st).2)
        (hist ++ [tk]) tk.now hinv2 hhist2 hchain2
    refine ⟨bound2, ?_, ?_⟩
    · have hout : out ++ (objRun cfg (tk :: rest) st).2 =
          (out ++ (objTick cfg tk.now tk.dets st).2) ++
            (objRun cfg rest (objTick cfg tk.now tk.dets st).1).2 := by
        show out ++ ((objTick cfg tk.now tk.dets st).2 ++
          (objRun cfg rest (objTick cfg tk.now tk.dets st).1).2) = _
        rw [List.append_assoc]
      have hst : (objRun cfg (tk :: rest) st).1 =
          (objRun cfg rest (objTick cfg tk.now tk.dets st).1).1 := rfl
      rw [hout, hst]
      have hh : hist ++ tk :: rest = (hist ++ [tk]) ++ rest := by simp
      rw [hh]
      exact hinv3
    · intro tk2 htk2
      apply hhist3
      rcases List.mem_append.mp htk2 with h2 | h2
      · exact List.mem_append.mpr (Or.inl (List.mem_append.mpr (Or.inl h2)))
      · rcases List.mem_cons.mp h2 with h2 | h2
        · exact List.mem_append.mpr (Or.inl (List.mem_append.mpr (Or.inr (by rw [h2]; simp))))
        · exact List.mem_append.mpr (Or.inr h2)

/-- Top-level property of the object-detect loop: every emission is preceded
by continuous above-threshold presence for its whole persistence window, and
same-class emissions are at least 1500 ms (the hard-coded cooldown) apart. -/
theorem objRun_persist_cooldown (cfg : ObjConfig) (trace : List ObjTickIn)
    (hmono : (trace.map ObjTickIn.now).Chain' (fun a b => a < b)) :
    (∀ em ∈ (objRun cfg trace initObjState).2, ∀ tk ∈ trace,
      em.firedAt - (cfg.persistMs em.evt).getD 800 ≤ tk.now → tk.now ≤ em.firedAt →
      presentAt cfg em.evt tk) ∧
    (objRun cfg trace initObjState).2.Pairwise
      (fun a b => a.evt = b.evt → 1500 ≤ b.firedAt - a.firedAt) := by
  cases trace with
  | nil =>
    constructor
    · intro em hem; cases hem
    · exact List.Pairwise.nil
  | cons t0 rest =>
    have hchain : List.Chain (fun a b : Int => a < b) (t0.now - 1)
        ((t0.now :: rest.map ObjTickIn.now)) := by
      rw [List.chain_cons]
      constructor
      · omega
      · exact hmono
    obtain ⟨bound2, hinv, _⟩ :=
      objRun_inv cfg (t0 :: rest) initObjState [] [] (t0.now - 1)
        (objInv_init cfg (t0.now - 1)) (fun tk htk => absurd htk (List.not_mem_nil tk))
        (by rw [List.map_cons]; exact hchain)
    rw [List.nil_append] at hinv
    constructor
    · intro em hem tk htk h1 h2
      have hneed := hinv.out_need em (by simpa using hem)
      refine hinv.out_window em (by simpa using hem) tk htk ?_ h2
      omega
    · have := hinv.out_sep
      simpa using this

theorem faceCd_nf (nf aw mc : Int) : faceCd nf aw mc "NO_FACE_10S" = nf := by
  unfold faceCd; simp

theorem faceCd_aw (nf aw mc : Int) : faceCd nf aw mc "FOCUS_LOST_5S" = aw := by
  unfold faceCd
  rw [if_neg (by decide), if_pos rfl]

theorem faceCd_mf (nf aw mc : Int) : faceCd nf aw mc "MULTIPLE_FACES" = mc := by
  unfold faceCd
  rw [if_neg (by decide), if_neg (by decide), if_pos rfl]

theorem faceInv_init (nf aw mc bound : Int) : FaceInv nf aw mc [] bound initFaceState [] := by
  refine ⟨?_, ?_, ?_, ?_, ?_, ?_, ?_, ?_, ?_, ?_⟩
  · intro τ h; cases h
  · intro τ h; cases h
  · intro τ h; cases h
  · intro τ h; cases h
  · intro em hem; cases hem
  · intro em hem; cases hem
  · intro em hem; cases hem
  · intro em hem; cases hem
  · intro em hem; cases hem
  · exact List.Pairwise.nil

theorem faceAway_inv (nf aw mc : Int) (hist : List FaceTickIn) (bound : Int) (s : FaceState)
    (out : List FEmission) (tk : FaceTickIn) (lastMulti : Int) (out0 : List FEmission)
    (hinv : FaceInv nf aw mc hist bound s out)
    (hhist : ∀ t ∈ hist, t.now ≤ bound)
    (hnow : bound < tk.now)
    (h0 : ¬ tk.n = 0)
    (hout0 : ∀ em ∈ out0, em.evt = "MULTIPLE_FACES" ∧ em.firedAt = tk.now)
    (hmdom : ∀ em ∈ out ++ out0, em.evt = "MULTIPLE_FACES" → em.firedAt ≤ lastMulti)
    (hmpres : ∀ em ∈ out0, ∃ t ∈ hist ++ [tk], t.now = em.firedAt ∧ 2 ≤ t.n)
    (hsep0 : (out ++ out0).Pairwise
      (fun a b => a.evt = b.evt → faceCd nf aw mc a.evt < b.firedAt - a.firedAt)) :
    FaceInv nf aw mc (hist ++ [tk]) tk.now (faceAwayPart aw tk s.awayStart lastMulti out0).1
      (out ++ (faceAwayPart aw tk s.awayStart lastMulti out0).2) := by
  have hob0 : ∀ em ∈ out0, em.firedAt ≤ tk.now := fun em hem => le_of_eq (hout0 em hem).2
  by_cases hla : lookingAway tk
  · by_cases haf : aw ≤ tk.now - s.awayStart.getD tk.now
    · -- FOCUS_LOST_5S fires
      rw [show faceAwayPart aw tk s.awayStart lastMulti out0 =
          (⟨none, some (tk.now + 60000), lastMulti⟩,
           out0 ++ [⟨"FOCUS_LOST_5S", tk.now⟩]) by
        unfold faceAwayPart; rw [if_pos hla, if_pos haf]]
      refine ⟨?_, ?_, ?_, ?_, ?_, ?_, ?_, ?_, ?_, ?_⟩
      · intro τ h; cases h
      · intro τ h; cases h
      · intro τ hτ t ht hle
        simp only [Option.some.injEq] at hτ
        rcases List.mem_append.mp ht with ht | ht
        · exfalso; have := hhist t ht; omega
        · rw [List.mem_singleton.mp ht]; exact ⟨h0, hla⟩
      · intro τ hτ em hem hevt
        simp only [Option.some.injEq] at hτ
        rcases List.mem_append.mp hem with hem | hem
        · have := hinv.out_bound em hem; omega
        · rcases List.mem_append.mp hem with hem | hem
          · have := hob0 em hem; omega
          · rw [List.mem_singleton.mp hem]; simp only; omega
      · intro em hem hevt
        rcases List.mem_append.mp hem with hem | hem
        · exact hmdom em (List.mem_append.mpr (Or.inl hem)) hevt
        · rcases List.mem_append.mp hem with hem | hem
          · exact hmdom em (List.mem_append.mpr (Or.inr hem)) hevt
          · rw [List.mem_singleton.mp hem] at hevt
            exact absurd hevt (show ¬("FOCUS_LOST_5S" : String) = "MULTIPLE_FACES" by decide)
      · intro em hem
        rcases List.mem_append.mp hem with hem | hem
        · have := hinv.out_bound em hem; omega
        · rcases List.mem_append.mp hem with hem | hem
          · exact hob0 em hem
          · rw [List.mem_singleton.mp hem]
      · intro em hem hevt t ht h1 h2
        rcases List.mem_append.mp hem with hem | hem
        · rcases List.mem_append.mp ht with ht | ht
          · exact hinv.out_nf_window em hem hevt t ht h1 h2
          · exfalso
            have htn : t.now = tk.now := by rw [List.mem_singleton.mp ht]
            have := hinv.out_bound em hem
            omega
        · rcases List.mem_append.mp hem with hem | hem
          · exact absurd ((hout0 em hem).1.symm.trans hevt) (by decide)
          · rw [List.mem_singleton.mp hem] at hevt
            exact absurd hevt (show ¬("FOCUS_LOST_5S" : String) = "NO_FACE_10S" by decide)
      · intro em hem hevt t ht h1 h2
        rcases List.mem_append.mp hem with hem | hem
        · rcases List.mem_append.mp ht with ht | ht
          · exact hinv.out_aw_window em hem hevt t ht h1 h2
          · exfalso
            have htn : t.now = tk.now := by rw [List.mem_singleton.mp ht]
            have := hinv.out_bound em hem
            omega
        · rcases List.mem_append.mp hem with hem | hem
          · exact absurd ((hout0 em hem).1.symm.trans hevt) (by decide)
          · have hemq := List.mem_singleton.mp hem
            rw [hemq] at h1 h2
            simp only at h1 h2
            cases has : s.awayStart with
            | none =>
              rw [has] at haf
              simp only [Option.getD_none] at haf
              rcases List.mem_append.mp ht with ht | ht
              · exfalso; have := hhist t ht; omega
              · rw [List.mem_singleton.mp ht]; exact ⟨h0, hla⟩
            | some τ0 =>
              rw [has] at haf
              simp only [Option.getD_some] at haf
              rcases List.mem_append.mp ht with ht | ht
              · exact hinv.aws_window τ0 has t ht (by omega)
              · rw [List.mem_singleton.mp ht]; exact ⟨h0, hla⟩
      · intro em hem hevt
        rcases List.mem_append.mp hem with hem | hem
        · obtain ⟨t, ht, hp⟩ := hinv.out_multi_present em hem hevt
          exact ⟨t, List.mem_append.mpr (Or.inl ht), hp⟩
        · rcases List.mem_append.mp hem with hem | hem
          · exact hmpres em hem
          · rw [List.mem_singleton.mp hem] at hevt
            exact absurd hevt (show ¬("FOCUS_LOST_5S" : String) = "MULTIPLE_FACES" by decide)
      · have hassoc : out ++ (out0 ++ [(⟨"FOCUS_LOST_5S", tk.now⟩ : FEmission)]) =
            (out ++ out0) ++ [⟨"FOCUS_LOST_5S", tk.now⟩] := by
          rw [List.append_assoc]
        rw [hassoc, List.pairwise_append]
        refine ⟨hsep0, List.pairwise_singleton _ _, ?_⟩
        intro a ha b hb heq
        rw [List.mem_singleton.mp hb] at heq ⊢
        simp only at heq ⊢
        rcases List.mem_append.mp ha with ha | ha
        · rw [heq, faceCd_aw]
          cases has : s.awayStart with
          | none =>
            rw [has] at haf
            simp only [Option.getD_none] at haf
            have := hinv.out_bound a ha
            omega
          | some τ0 =>
            rw [has] at haf
            simp only [Option.getD_some] at haf
            have := hinv.aws_after τ0 has a ha heq
            omega
        · exact absurd ((hout0 a ha).1.symm.trans heq) (by decide)
    · -- looking away but persistence not yet reached
      rw [show faceAwayPart aw tk s.awayStart lastMulti out0 =
          (⟨none, some (s.awayStart.getD tk.now), lastMulti⟩, out0) by
        unfold faceAwayPart; rw [if_pos hla, if_neg haf]]
      refine ⟨?_, ?_, ?_, ?_, ?_, ?_, ?_, ?_, ?_, ?_⟩
      · intro τ h; cases h
      · intro τ h; cases h
      · intro τ hτ t ht hle
        simp only [Option.some.injEq] at hτ
        cases has : s.awayStart with
        | none =>
          rw [has] at hτ
          simp only [Option.getD_none] at hτ
          rcases List.mem_append.mp ht with ht | ht
          · exfalso; have := hhist t ht; omega
          · rw [List.mem_singleton.mp ht]; exact ⟨h0, hla⟩
        | some τ0 =>
          rw [has] at hτ
          simp only [Option.getD_some] at hτ
          rcases List.mem_append.mp ht with ht | ht
          · exact hinv.aws_window τ0 has t ht (by omega)
          · rw [List.mem_singleton.mp ht]; exact ⟨h0, hla⟩
      · intro τ hτ em hem hevt
        simp only [Option.some.injEq] at hτ
        rcases List.mem_append.mp hem with hem | hem
        · cases has : s.awayStart with
          | none =>
            rw [has] at hτ
            simp only [Option.getD_none] at hτ
            have := hinv.out_bound em hem
            omega
          | some τ0 =>
            rw [has] at hτ
            simp only [Option.getD_some] at hτ
            have := hinv.aws_after τ0 has em hem hevt
            omega
        · exact absurd ((hout0 em hem).1.symm.trans hevt) (by decide)
      · intro em hem hevt
        exact hmdom em hem hevt
      · intro em hem
        rcases List.mem_append.mp hem with hem | hem
        · have := hinv.out_bound em hem; omega
        · exact hob0 em hem
      · intro em hem hevt t ht h1 h2
        rcases List.mem_append.mp hem with hem | hem
        · rcases List.mem_append.mp ht with ht | ht
          · exact hinv.out_nf_window em hem hevt t ht h1 h2
          · exfalso
            have htn : t.now = tk.now := by rw [List.mem_singleton.mp ht]
            have := hinv.out_bound em hem
            omega
        · exact absurd ((hout0 em hem).1.symm.trans hevt) (by decide)
      · intro em hem hevt t ht h1 h2
        rcases List.mem_append.mp hem with hem | hem
        · rcases List.mem_append.mp ht with ht | ht
          · exact hinv.out_aw_window em hem hevt t ht h1 h2
          · exfalso
            have htn : t.now = tk.now := by rw [List.mem_singleton.mp ht]
            have := hinv.out_bound em hem
            omega
        · exact absurd ((hout0 em hem).1.symm.trans hevt) (by decide)
      · intro em hem hevt
        rcases List.mem_append.mp hem with hem | hem
        · obtain ⟨t, ht, hp⟩ := hinv.out_multi_present em hem hevt
          exact ⟨t, List.mem_append.mpr (Or.inl ht), hp⟩
        · exact hmpres em hem
      · exact hsep0
  · -- not looking away: away timer cleared
    rw [show faceAwayPart aw tk s.awayStart lastMulti out0 =
        (⟨none, none, lastMulti⟩, out0) by
      unfold faceAwayPart; rw [if_neg hla]]
    refine ⟨?_, ?_, ?_, ?_, ?_, ?_, ?_, ?_, ?_, ?_⟩
    · intro τ h; cases h
    · intro τ h; cases h
    · intro τ h; cases h
    · intro τ h; cases h
    · intro em hem hevt
      exact hmdom em hem hevt
    · intro em hem
      rcases List.mem_append.mp hem with hem | hem
      · have := hinv.out_bound em hem; omega
      · exact hob0 em hem
    · intro em hem hevt t ht h1 h2
      rcases List.mem_append.mp hem with hem | hem
      · rcases List.mem_append.mp ht with ht | ht
        · exact hinv.out_nf_window em hem hevt t ht h1 h2
        · exfalso
          have htn : t.now = tk.now := by rw [List.mem_singleton.mp ht]
          have := hinv.out_bound em hem
          omega
      · exact absurd ((hout0 em hem).1.symm.trans hevt) (by decide)
    · intro em hem hevt t ht h1 h2
      rcases List.mem_append.mp hem with hem | hem
      · rcases List.mem_append.mp ht with ht | ht
        · exact hinv.out_aw_window em hem hevt t ht h1 h2
        · exfalso
          have htn : t.now = tk.now := by rw [List.mem_singleton.mp ht]
          have := hinv.out_bound em hem
          omega
      · exact absurd ((hout0 em hem).1.symm.trans hevt) (by decide)
    · intro em hem hevt
      rcases List.mem_append.mp hem with hem | hem
      · obtain ⟨t, ht, hp⟩ := hinv.out_multi_present em hem hevt
        exact ⟨t, List.mem_append.mpr (Or.inl ht), hp⟩
      · exact hmpres em hem
    · exact hsep0

theorem faceTick_n0_fire (nf aw mc : Int) (tk : FaceTickIn) (s : FaceState)
    (h0 : tk.n = 0) (hf : nf ≤ tk.now - s.noFaceStart.getD tk.now) :
    faceTick nf aw mc tk s =
      (⟨some (tk.now + 60000), none, s.lastMultiFaceAt⟩, [⟨"NO_FACE_10S", tk.now⟩]) := by
  unfold faceTick; rw [if_pos h0, if_pos hf]

theorem faceTick_n0_wait (nf aw mc : Int) (tk : FaceTickIn) (s : FaceState)
    (h0 : tk.n = 0) (hf : ¬ nf ≤ tk.now - s.noFaceStart.getD tk.now) :
    faceTick nf aw mc tk s =
      (⟨some (s.noFaceStart.getD tk.now), none, s.lastMultiFaceAt⟩, []) := by
  unfold faceTick; rw [if_pos h0, if_neg hf]

theorem faceTick_pos_multi (nf aw mc : Int) (tk : FaceTickIn) (s : FaceState)
    (h0 : ¬ tk.n = 0) (hm : 2 ≤ tk.n ∧ mc < tk.now - s.lastMultiFaceAt) :
    faceTick nf aw mc tk s =
      faceAwayPart aw tk s.awayStart tk.now [⟨"MULTIPLE_FACES", tk.now⟩] := by
  unfold faceTick; rw [if_neg h0, if_pos hm]

theorem faceTick_pos_nomulti (nf aw mc : Int) (tk : FaceTickIn) (s : FaceState)
    (h0 : ¬ tk.n = 0) (hm : ¬ (2 ≤ tk.n ∧ mc < tk.now - s.lastMultiFaceAt)) :
    faceTick nf aw mc tk s = faceAwayPart aw tk s.awayStart s.lastMultiFaceAt [] := by
  unfold faceTick; rw [if_neg h0, if_neg hm]

theorem faceTick_inv (nf aw mc : Int) (hist : List FaceTickIn) (bound : Int) (s : FaceState)
    (out : List FEmission) (tk : FaceTickIn)
    (hinv : FaceInv nf aw mc hist bound s out)
    (hhist : ∀ t ∈ hist, t.now ≤ bound)
    (hnow : bound < tk.now) :
    FaceInv nf aw mc (hist ++ [tk]) tk.now (faceTick nf aw mc tk s).1
      (out ++ (faceTick nf aw mc tk s).2) ∧
    ∀ t ∈ hist ++ [tk], t.now ≤ tk.now := by
  have htimes : ∀ t ∈ hist ++ [tk], t.now ≤ tk.now := by
    intro t ht
    rcases List.mem_append.mp ht with ht | ht
    · have := hhist t ht; omega
    · rw [List.mem_singleton.mp ht]
  refine ⟨?_, htimes⟩
  by_cases h0 : tk.n = 0
  · by_cases hf : nf ≤ tk.now - s.noFaceStart.getD tk.now
    · rw [faceTick_n0_fire nf aw mc tk s h0 hf]
      refine ⟨?_, ?_, ?_, ?_, ?_, ?_, ?_, ?_, ?_, ?_⟩
      · intro τ hτ t ht hle
        simp only [Option.some.injEq] at hτ
        rcases List.mem_append.mp ht with ht | ht
        · exfalso; have := hhist t ht; omega
        · rw [List.mem_singleton.mp ht]; exact h0
      · intro τ hτ em hem hevt
        simp only [Option.some.injEq] at hτ
        rcases List.mem_append.mp hem with hem | hem
        · have := hinv.out_bound em hem; omega
        · rw [List.mem_singleton.mp hem]; simp only; omega
      · intro τ hτ; cases hτ
      · intro τ hτ; cases hτ
      · intro em hem hevt
        rcases List.mem_append.mp hem with hem | hem
        · exact hinv.multi_dom em hem hevt
        · rw [List.mem_singleton.mp hem] at hevt
          exact absurd hevt (show ¬("NO_FACE_10S" : String) = "MULTIPLE_FACES" by decide)
      · intro em hem
        rcases List.mem_append.mp hem with hem | hem
        · have := hinv.out_bound em hem; omega
        · rw [List.mem_singleton.mp hem]
      · intro em hem hevt t ht h1 h2
        rcases List.mem_append.mp hem with hem | hem
        · rcases List.mem_append.mp ht with ht | ht
          · exact hinv.out_nf_window em hem hevt t ht h1 h2
          · exfalso
            have htn : t.now = tk.now := by rw [List.mem_singleton.mp ht]
            have := hinv.out_bound em hem
            omega
        · have hemq := List.mem_singleton.mp hem
          rw [hemq] at h1 h2
          simp only at h1 h2
          cases hns : s.noFaceStart with
          | none =>
            rw [hns] at hf
            simp only [Option.getD_none] at hf
            rcases List.mem_append.mp ht with ht | ht
            · exfalso; have := hhist t ht; omega
            · rw [List.mem_singleton.mp ht]; exact h0
          | some τ0 =>
            rw [hns] at hf
            simp only [Option.getD_some] at hf
            rcases List.mem_append.mp ht with ht | ht
            · exact hinv.nfs_window τ0 hns t ht (by omega)
            · rw [List.mem_singleton.mp ht]; exact h0
      · intro em hem hevt t ht h1 h2
        rcases List.mem_append.mp hem with hem | hem
        · rcases List.mem_append.mp ht with ht | ht
          · exact hinv.out_aw_window em hem hevt t ht h1 h2
          · exfalso
            have htn : t.now = tk.now := by rw [List.mem_singleton.mp ht]
            have := hinv.out_bound em hem
            omega
        · rw [List.mem_singleton.mp hem] at hevt
          exact absurd hevt (show ¬("NO_FACE_10S" : String) = "FOCUS_LOST_5S" by decide)
      · intro em hem hevt
        rcases List.mem_append.mp hem with hem | hem
        · obtain ⟨t, ht, hp⟩ := hinv.out_multi_present em hem hevt
          exact ⟨t, List.mem_append.mpr (Or.inl ht), hp⟩
        · rw [List.mem_singleton.mp hem] at hevt
          exact absurd hevt (show ¬("NO_FACE_10S" : String) = "MULTIPLE_FACES" by decide)
      · rw [List.pairwise_append]
        refine ⟨hinv.out_sep, List.pairwise_singleton _ _, ?_⟩
        intro a ha b hb heq
        rw [List.mem_singleton.mp hb] at heq ⊢
        simp only at heq ⊢
        rw [heq, faceCd_nf]
        cases hns : s.noFaceStart with
        | none =>
          rw [hns] at hf
          simp only [Option.getD_none] at hf
          have := hinv.out_bound a ha
          omega
        | some τ0 =>
          rw [hns] at hf
          simp only [Option.getD_some] at hf
          have := hinv.nfs_after τ0 hns a ha heq
          omega
    · rw [faceTick_n0_wait nf aw mc tk s h0 hf]
      refine ⟨?_, ?_, ?_, ?_, ?_, ?_, ?_, ?_, ?_, ?_⟩
      · intro τ hτ t ht hle
        simp only [Option.some.injEq] at hτ
        cases hns : s.noFaceStart with
        | none =>
          rw [hns] at hτ
          simp only [Option.getD_none] at hτ
          rcases List.mem_append.mp ht with ht | ht
          · exfalso; have := hhist t ht; omega
          · rw [List.mem_singleton.mp ht]; exact h0
        | some τ0 =>
          rw [hns] at hτ
          simp only [Option.getD_some] at hτ
          rcases List.mem_append.mp ht with ht | ht
          · exact hinv.nfs_window τ0 hns t ht (by omega)
          · rw [List.mem_singleton.mp ht]; exact h0
      · intro τ hτ em hem hevt
        simp only [Option.some.injEq] at hτ
        rcases List.mem_append.mp hem with hem | hem
        · cases hns : s.noFaceStart with
          | none =>
            rw [hns] at hτ
            simp only [Option.getD_none] at hτ
            have := hinv.out_bound em hem
            omega
          | some τ0 =>
            rw [hns] at hτ
            simp only [Option.getD_some] at hτ
            have := hinv.nfs_after τ0 hns em hem hevt
            omega
        · cases hem
      · intro τ hτ; cases hτ
      · intro τ hτ; cases hτ
      · intro em hem hevt
        rcases List.mem_append.mp hem with hem | hem
        · exact hinv.multi_dom em hem hevt
        · cases hem
      · intro em hem
        rcases List.mem_append.mp hem with hem | hem
        · have := hinv.out_bound em hem; omega
        · cases hem
      · intro em hem hevt t ht h1 h2
        rcases List.mem_append.mp hem with hem | hem
        · rcases List.mem_append.mp ht with ht | ht
          · exact hinv.out_nf_window em hem hevt t ht h1 h2
          · exfalso
            have htn : t.now = tk.now := by rw [List.mem_singleton.mp ht]
            have := hinv.out_bound em hem
            omega
        · cases hem
      · intro em hem hevt t ht h1 h2
        rcases List.mem_append.mp hem with hem | hem
        · rcases List.mem_append.mp ht with ht | ht
          · exact hinv.out_aw_window em hem hevt t ht h1 h2
          · exfalso
            have htn : t.now = tk.now := by rw [List.mem_singleton.mp ht]
            have := hinv.out_bound em hem
            omega
        · cases hem
      · intro em hem hevt
        rcases List.mem_append.mp hem with hem | hem
        · obtain ⟨t, ht, hp⟩ := hinv.out_multi_present em hem hevt
          exact ⟨t, List.mem_append.mpr (Or.inl ht), hp⟩
        · cases hem
      · rw [List.pairwise_append]
        refine ⟨hinv.out_sep, List.Pairwise.nil, ?_⟩
        intro a _ b hb
        cases hb
  · by_cases hm : 2 ≤ tk.n ∧ mc < tk.now - s.lastMultiFaceAt
    · rw [faceTick_pos_multi nf aw mc tk s h0 hm]
      refine faceAway_inv nf aw mc hist bound s out tk tk.now
        [⟨"MULTIPLE_FACES", tk.now⟩] hinv hhist hnow h0 ?_ ?_ ?_ ?_
      · intro em hem
        rw [List.mem_singleton.mp hem]
        exact ⟨rfl, rfl⟩
      · intro em hem hevt
        rcases List.mem_append.mp hem with hem | hem
        · have := hinv.out_bound em hem; omega
        · rw [List.mem_singleton.mp hem]
      · intro em hem
        rw [List.mem_singleton.mp hem]
        exact ⟨tk, List.mem_append.mpr (Or.inr (by simp)), rfl, hm.1⟩
      · rw [List.pairwise_append]
        refine ⟨hinv.out_sep, List.pairwise_singleton _ _, ?_⟩
        intro a ha b hb heq
        rw [List.mem_singleton.mp hb] at heq ⊢
        simp only at heq ⊢
        rw [heq, faceCd_mf]
        have := hinv.multi_dom a ha heq
        have hm2 := hm.2
        omega
    · rw [faceTick_pos_nomulti nf aw mc tk s h0 hm]
      refine faceAway_inv nf aw mc hist bound s out tk s.lastMultiFaceAt [] hinv hhist hnow h0
        ?_ ?_ ?_ ?_
      · intro em hem; cases hem
      · intro em hem hevt
        rw [List.append_nil] at hem
        exact hinv.multi_dom em hem hevt
      · intro em hem; cases hem
      · rw [List.append_nil]
        exact hinv.out_sep

theorem faceRun_inv (nf aw mc : Int) :
    ∀ (trace : List FaceTickIn) (s : FaceState) (out : List FEmission)
      (hist : List FaceTickIn) (bound : Int),
      FaceInv nf aw mc hist bound s out →
      (∀ t ∈ hist, t.now ≤ bound) →
      List.Chain (fun a b => a < b) bound (trace.map FaceTickIn.now) →
      ∃ bound2,
        FaceInv nf aw mc (hist ++ trace) bound2 (faceRun nf aw mc trace s).1
          (out ++ (faceRun nf aw mc trace s).2) ∧
        ∀ t ∈ hist ++ trace, t.now ≤ bound2 := by
  intro trace
  induction trace with
  | nil =>
    intro s out hist bound hinv hhist _
    refine ⟨bound, ?_, by simpa using hhist⟩
    show FaceInv nf aw mc (hist ++ []) bound s (out ++ [])
    simpa using hinv
  | cons tk rest ih =>
    intro s out hist bound hinv hhist hchain
    rw [List.map_cons, List.chain_cons] at hchain
    obtain ⟨hlt, hchain2⟩ := hchain
    obtain ⟨hinv2, hhist2⟩ := faceTick_inv nf aw mc hist bound s out tk hinv hhist hlt
    obtain ⟨bound2, hinv3, hhist3⟩ :=
      ih (faceTick nf aw mc tk s).1 (out ++ (faceTick nf aw mc tk s).2)
        (hist ++ [tk]) tk.now hinv2 hhist2 hchain2
    refine ⟨bound2, ?_, ?_⟩
    · have hout : out ++ (faceRun nf aw mc (tk :: rest) s).2 =
          (out ++ (faceTick nf aw mc tk s).2) ++
            (faceRun nf aw mc rest (faceTick nf aw mc tk s).1).2 := by
        show out ++ ((faceTick nf aw mc tk s).2 ++
          (faceRun nf aw mc rest (faceTick nf aw mc tk s).1).2) = _
        rw [List.append_assoc]
      have hst : (faceRun nf aw mc (tk :: rest) s).1 =
          (faceRun nf aw mc rest (faceTick nf aw mc tk s).1).1 := rfl
      rw [hout, hst]
      have hh : hist ++ tk :: rest = (hist ++ [tk]) ++ rest := by simp
      rw [hh]
      exact hinv3
    · intro t2 ht2
      apply hhist3
      rcases List.mem_append.mp ht2 with h2 | h2
      · exact List.mem_append.mpr (Or.inl (List.mem_append.mpr (Or.inl h2)))
      · rcases List.mem_cons.mp h2 with h2 | h2
        · exact List.mem_append.mpr (Or.inl (List.mem_append.mpr (Or.inr (by rw [h2]; simp))))
        · exact List.mem_append.mpr (Or.inr h2)

/-- Top-level property of the face loop: every NO_FACE_10S / FOCUS_LOST_5S
emission is preceded by a full persistence window of the corresponding
condition, every MULTIPLE_FACES emission happens on a tick with ≥ 2 faces,
and same-class emissions are separated by more than the class's cooldown
window (`noFaceMs` / `awayMs` / `multiFacesCooldownMs`). -/
theorem faceRun_props (nf aw mc : Int) (trace : List FaceTickIn)
    (hmono : (trace.map FaceTickIn.now).Chain' (fun a b => a < b)) :
    (∀ em ∈ (faceRun nf aw mc trace initFaceState).2, em.evt = "NO_FACE_10S" →
      ∀ tk ∈ trace, em.firedAt - nf ≤ tk.now → tk.now ≤ em.firedAt → tk.n = 0) ∧
    (∀ em ∈ (faceRun nf aw mc trace initFaceState).2, em.evt = "FOCUS_LOST_5S" →
      ∀ tk ∈ trace, em.firedAt - aw ≤ tk.now → tk.now ≤ em.firedAt →
        tk.n ≠ 0 ∧ lookingAway tk) ∧
    (∀ em ∈ (faceRun nf aw mc trace initFaceState).2, em.evt = "MULTIPLE_FACES" →
      ∃ tk ∈ trace, tk.now = em.firedAt ∧ 2 ≤ tk.n) ∧
    (faceRun nf aw mc trace initFaceState).2.Pairwise
      (fun a b => a.evt = b.evt → faceCd nf aw mc a.evt < b.firedAt - a.firedAt) := by
  cases trace with
  | nil =>
    refine ⟨?_, ?_, ?_, List.Pairwise.nil⟩
    · intro em hem; cases hem
    · intro em hem; cases hem
    · intro em hem; cases hem
  | cons t0 rest =>
    obtain ⟨bound2, hinv, _⟩ :=
      faceRun_inv nf aw mc (t0 :: rest) initFaceState [] [] (t0.now - 1)
        (faceInv_init nf aw mc (t0.now - 1)) (fun t ht => absurd ht (List.not_mem_nil t))
        (by
          rw [List.map_cons, List.chain_cons]
          exact ⟨by omega, hmono⟩)
    rw [List.nil_append] at hinv
    refine ⟨?_, ?_, ?_, ?_⟩
    · intro em hem hevt tk htk h1 h2
      exact hinv.out_nf_window em (by simpa using hem) hevt tk htk h1 h2
    · intro em hem hevt tk htk h1 h2
      exact hinv.out_aw_window em (by simpa using hem) hevt tk htk h1 h2
    · intro em hem hevt
      exact hinv.out_multi_present em (by simpa using hem) hevt
    · have := hinv.out_sep
      simpa using this

/-- C2: for every count map, `computeIntegrity` returns the score obtained by
starting at 100 and, for each event type that has a rule and a nonzero count,
subtracting `min(perOccurrence × count, cap)` with the running score floored
at 0 after each subtraction; types with no rule contribute no deduction, and
no recorded deduction exceeds its type's cap. -/
theorem C2_score_algorithm (counts : CountMap) :
    (computeIntegrity counts).1 = claimScoreC2 counts ∧
    ∀ row ∈ (computeIntegrity counts).2, ∃ per cap,
      RULES.lookup row.type = some (per, cap) ∧
      row.deduct = min (per * (row.times : Int)) cap ∧ row.deduct ≤ cap := by
  constructor
  · exact scoreFold_eq_claim counts 100 [] (by norm_num)
  · intro row hrow
    have hmem : row ∈ (counts.foldl scoreStep (100, [])).2 :=
      (sortRowsDesc_perm _).mem_iff.mp hrow
    rcases scoreFold_rows_capped counts 100 [] row hmem with hin | hfound
    · exact absurd hin (List.not_mem_nil row)
    · exact hfound

/-- Witness for C2 at a concrete count map and breakdown row. -/
theorem C2_score_algorithm_witness :
    (computeIntegrity [(evtNoFace, 3)]).1 = claimScoreC2 [(evtNoFace, 3)] ∧
    (∃ per cap, RULES.lookup evtNoFace = some (per, cap) ∧
      (15 : Int) = min (per * (3 : Int)) cap ∧ (15 : Int) ≤ cap) := by
  refine ⟨(C2_score_algorithm [(evtNoFace, 3)]).1, ?_⟩
  have h := (C2_score_algorithm [(evtNoFace, 3)]).2 ⟨evtNoFace, 3, 15⟩ (by decide)
  simpa using h

/-- C3: the scoring function is pure and deterministic — equal count maps
give identical results — and the returned score always lies in [0, 100]. -/
theorem C3_score_pure_bounded :
    (∀ c₁ c₂ : CountMap, c₁ = c₂ → computeIntegrity c₁ = computeIntegrity c₂) ∧
    (∀ counts : CountMap,
      0 ≤ (computeIntegrity counts).1 ∧ (computeIntegrity counts).1 ≤ 100) := by
  constructor
  · intro c₁ c₂ h
    rw [h]
  · intro counts
    have := scoreFold_fst_bounds counts 100 [] (by norm_num)
    exact ⟨this.1, this.2⟩

/-- Witness for C3 at a concrete count map. -/
theorem C3_score_pure_bounded_witness :
    computeIntegrity [(evtPhone, 10)] = computeIntegrity [(evtPhone, 10)] ∧
    (0 ≤ (computeIntegrity [(evtPhone, 10)]).1 ∧
     (computeIntegrity [(evtPhone, 10)]).1 ≤ 100) :=
  ⟨C3_score_pure_bounded.1 _ _ rfl, C3_score_pure_bounded.2 _⟩

/-- C4: a failed flush prepends the drained batch back in front of the
buffer, so after any history of pushes and flush failures no event is lost
(`delivered ++ buffer` always equals everything pushed, in order), and a
later successful flush delivers everything in the original relative order. -/
theorem C4_buffer_no_loss :
    (∀ ops : List BufOp,
      (bufRun ops).delivered.flatten ++ (bufRun ops).buffer = pushedOf ops) ∧
    (∀ ops : List BufOp,
      (bufRun (ops ++ [BufOp.flush true []])).buffer = [] ∧
      (bufRun (ops ++ [BufOp.flush true []])).delivered.flatten = pushedOf ops) := by
  constructor
  · exact bufRun_content
  · intro ops
    have hrun : bufRun (ops ++ [BufOp.flush true []]) =
        bufStep (bufRun ops) (BufOp.flush true []) := by
      unfold bufRun
      rw [List.foldl_append]
      rfl
    have hcont := bufRun_content ops
    by_cases hb : (bufRun ops).buffer.isEmpty
    · have hnil : (bufRun ops).buffer = [] := List.isEmpty_iff.mp hb
      constructor
      · rw [hrun]
        simp [bufStep, hb, hnil]
      · rw [hrun]
        simp only [bufStep, hb, if_pos]
        rw [← hcont, hnil]
        simp
    · constructor
      · rw [hrun]
        simp [bufStep, hb]
      · rw [hrun]
        simp only [bufStep, hb, if_neg, Bool.false_eq_true, if_true]
        rw [← hcont]
        simp

/-- C7: when both start and end timestamps are present the estimated
duration is `end − start`; otherwise it is the maximum event offset of the
(offset-sorted, non-negative) event log, or 0 with no events. -/
theorem C7_duration_estimate :
    (∀ (s e : Int) (events : List EventRow),
      estimateDurationMs (some s) (some e) events = e - s) ∧
    (∀ (startMs endMs : Option Int) (events : List EventRow),
      startMs = none ∨ endMs = none →
      events.Pairwise (fun a b => a.t ≤ b.t) →
      (∀ ev ∈ events, 0 ≤ ev.t) →
      estimateDurationMs startMs endMs events =
        events.foldr (fun ev m => max ev.t m) 0) := by
  constructor
  · intro s e events
    rfl
  · intro startMs endMs events hnone hsorted hnn
    have hmax := lastT_eq_maxT events hsorted hnn
    have hfall :
        (let lastT : Int :=
          match events.getLast? with
          | some ev => ev.t
          | none => 0
        if lastT = 0 then 0 else lastT) = events.foldr (fun ev m => max ev.t m) 0 := by
      rw [show (match events.getLast? with
          | some ev => ev.t
          | none => (0 : Int)) = events.foldr (fun ev m => max ev.t m) 0 from hmax]
      by_cases h0 : events.foldr (fun ev m => max ev.t m) 0 = 0
      · simp [h0]
      · simp [h0]
    rcases hnone with h | h
    · rw [h]
      cases endMs with
      | none => exact hfall
      | some e => exact hfall
    · rw [h]
      cases startMs with
      | none => exact hfall
      | some s => exact hfall

/-- Witness for C7: scenario D (no end time, events up to offset 125000 ms ⇒
estimated duration 125000 ms), plus the end−start case. -/
theorem C7_duration_estimate_witness :
    estimateDurationMs (some 5) (some 130005) [] = 130000 ∧
    estimateDurationMs (some 0) none evD = 125000 := by
  constructor
  · rw [C7_duration_estimate.1 5 130005 []]
    norm_num
  · rw [C7_duration_estimate.2 (some 0) none evD (Or.inr rfl) (by decide) (by decide)]
    decide

/-- C8 counterexample: the breakdown tie between `NO_FACE_10S` and
`BOOK_DETECTED` (both deduct 20) is left in count-map entry order by the
stable sort; running the two entry orders shows no event-type-name
tie-break (in either direction) is applied. -/
theorem C8_counterexample :
    ¬ (computeIntegrity c8CountsA).2.Pairwise
        (fun a b => b.deduct < a.deduct ∨ (a.deduct = b.deduct ∧ typeNameLe a.type b.type)) ∧
    ¬ (computeIntegrity c8CountsB).2.Pairwise
        (fun a b => b.deduct < a.deduct ∨ (a.deduct = b.deduct ∧ typeNameLe b.type a.type)) := by
  constructor
  · intro h
    have := List.pairwise_cons.mp h
    have h2 := this.1 ⟨"BOOK_DETECTED", 4, 20⟩ (by decide)
    revert h2
    decide
  · intro h
    have := List.pairwise_cons.mp h
    have h2 := this.1 ⟨"NO_FACE_10S", 4, 20⟩ (by decide)
    revert h2
    decide

/-- C8 (amended): the breakdown is a permutation of the per-entry rows,
sorted descending by deduction amount; ties between equal deductions are
left in count-map entry order by the stable sort, not re-ordered by
event-type name. -/
theorem C8_breakdown_sorted (counts : CountMap) :
    (computeIntegrity counts).2.Pairwise (fun a b => b.deduct ≤ a.deduct) ∧
    (computeIntegrity counts).2.Perm (counts.foldl scoreStep (100, [])).2 :=
  ⟨sortRowsDesc_sorted _, sortRowsDesc_perm _⟩

/-- C9 counterexample: a PATCH body containing the field `"foo"` — outside
the specified allow-list — is not rejected: the handler answers 200 and the
field is written to the stored record. -/
theorem C9_counterexample :
    fieldFoo ∉ ALLOWED_SESSION_PATCH_FIELDS ∧
    (patchHandler true (some [(fieldFoo, (1 : Nat))]) (fun _ => none)).1 = 200 ∧
    ((patchHandler true (some [(fieldFoo, (1 : Nat))]) (fun _ => none)).2) fieldFoo = some 1 := by
  refine ⟨by decide, rfl, rfl⟩

/-- C9 (amended): the PATCH handler applies every field of a parseable body
to the stored record via `$set` (later duplicates winning), with no
allow-list filtering; a request is rejected (400, record unchanged) only for
an unparseable body or an invalid id. -/
theorem C9_patch_applies_all {α : Type} (doc : String → Option α)
    (patch : List (String × α)) :
    (patchHandler true (some patch) doc).1 = 200 ∧
    (∀ k : String,
      ((patchHandler true (some patch) doc).2) k =
        (match (patch.filter (fun kv => kv.1 == k)).getLast? with
         | some kv => some kv.2
         | none => doc k)) ∧
    patchHandler false (some patch) doc = (400, doc) ∧
    patchHandler true (none : Option (List (String × α))) doc = (400, doc) := by
  refine ⟨rfl, ?_, rfl, rfl⟩
  intro k
  exact applySet_lookup patch doc k

/-- C10: a valid batch is stored with every document's `interviewId` forced
to the request's top-level id (the per-event one is ignored), `t`, `type`,
`confidence`, `meta` copied, `createdAt` defaulted to the server clock when
absent, and the reported inserted count equals the number of submitted
events. -/
theorem C10_events_post (interviewId : String) (events : List ProctorEventInput)
    (nowIso : String) (hid : interviewId ≠ "") :
    ∃ docs : List ProctorEventDB,
      postEvents interviewId events nowIso = .ok (docs, events.length) ∧
      docs.length = events.length ∧
      ∀ (i : Nat) (hi : i < docs.length) (he : i < events.length),
        (docs.get ⟨i, hi⟩).interviewId = interviewId ∧
        (docs.get ⟨i, hi⟩).t = (events.get ⟨i, he⟩).t ∧
        (docs.get ⟨i, hi⟩).type = (events.get ⟨i, he⟩).type ∧
        (docs.get ⟨i, hi⟩).confidence = (events.get ⟨i, he⟩).confidence ∧
        (docs.get ⟨i, hi⟩).meta = (events.get ⟨i, he⟩).meta ∧
        (docs.get ⟨i, hi⟩).createdAt = ((events.get ⟨i, he⟩).createdAt).getD nowIso := by
  refine ⟨events.map fun e =>
      ⟨interviewId, e.t, e.type, e.confidence, e.meta, e.createdAt.getD nowIso⟩, ?_, ?_, ?_⟩
  · unfold postEvents
    rw [if_neg hid]
    simp
  · simp
  · intro i hi he
    simp [List.getElem_map]

/-- C1: in both detection loops, over every strictly time-ordered sequence of
processing ticks, an event of a class is emitted only after the class has been
continuously at-or-above its confidence threshold on every tick of its whole
persistence window, and same-class emissions respect the class's cooldown
window (1500 ms in the object loop; `noFaceMs` / `awayMs` /
`multiFacesCooldownMs` in the face loop, MULTIPLE_FACES having persistence
zero — presence at the firing tick). -/
theorem C1_debounce_invariant :
    (∀ (cfg : ObjConfig) (trace : List ObjTickIn),
      (trace.map ObjTickIn.now).Chain' (fun a b => a < b) →
      (∀ em ∈ (objRun cfg trace initObjState).2, ∀ tk ∈ trace,
        em.firedAt - (cfg.persistMs em.evt).getD 800 ≤ tk.now → tk.now ≤ em.firedAt →
        presentAt cfg em.evt tk) ∧
      (objRun cfg trace initObjState).2.Pairwise
        (fun a b => a.evt = b.evt → 1500 ≤ b.firedAt - a.firedAt)) ∧
    (∀ (nf aw mc : Int) (trace : List FaceTickIn),
      (trace.map FaceTickIn.now).Chain' (fun a b => a < b) →
      (∀ em ∈ (faceRun nf aw mc trace initFaceState).2, em.evt = "NO_FACE_10S" →
        ∀ tk ∈ trace, em.firedAt - nf ≤ tk.now → tk.now ≤ em.firedAt → tk.n = 0) ∧
      (∀ em ∈ (faceRun nf aw mc trace initFaceState).2, em.evt = "FOCUS_LOST_5S" →
        ∀ tk ∈ trace, em.firedAt - aw ≤ tk.now → tk.now ≤ em.firedAt →
          tk.n ≠ 0 ∧ lookingAway tk) ∧
      (∀ em ∈ (faceRun nf aw mc trace initFaceState).2, em.evt = "MULTIPLE_FACES" →
        ∃ tk ∈ trace, tk.now = em.firedAt ∧ 2 ≤ tk.n) ∧
      (faceRun nf aw mc trace initFaceState).2.Pairwise
        (fun a b => a.evt = b.evt → faceCd nf aw mc a.evt < b.firedAt - a.firedAt)) :=
  ⟨objRun_persist_cooldown, faceRun_props⟩

/-- Witness for C1 at a concrete object-loop trace and face-loop trace. -/
theorem C1_debounce_invariant_witness :
    ((∀ em ∈ (objRun cfg0 trHold initObjState).2, ∀ tk ∈ trHold,
        em.firedAt - (cfg0.persistMs em.evt).getD 800 ≤ tk.now → tk.now ≤ em.firedAt →
        presentAt cfg0 em.evt tk) ∧
      (objRun cfg0 trHold initObjState).2.Pairwise
        (fun a b => a.evt = b.evt → 1500 ≤ b.firedAt - a.firedAt)) ∧
    ((∀ em ∈ (faceRun 10000 5000 10000 ftr0 initFaceState).2, em.evt = "NO_FACE_10S" →
        ∀ tk ∈ ftr0, em.firedAt - 10000 ≤ tk.now → tk.now ≤ em.firedAt → tk.n = 0) ∧
      (∀ em ∈ (faceRun 10000 5000 10000 ftr0 initFaceState).2, em.evt = "FOCUS_LOST_5S" →
        ∀ tk ∈ ftr0, em.firedAt - 5000 ≤ tk.now → tk.now ≤ em.firedAt →
          tk.n ≠ 0 ∧ lookingAway tk) ∧
      (∀ em ∈ (faceRun 10000 5000 10000 ftr0 initFaceState).2, em.evt = "MULTIPLE_FACES" →
        ∃ tk ∈ ftr0, tk.now = em.firedAt ∧ 2 ≤ tk.n) ∧
      (faceRun 10000 5000 10000 ftr0 initFaceState).2.Pairwise
        (fun a b => a.evt = b.evt → faceCd 10000 5000 10000 a.evt < b.firedAt - a.firedAt)) :=
  ⟨C1_debounce_invariant.1 cfg0 trHold
    (by rw [show List.map ObjTickIn.now trHold = [100000, 100400, 100800] from rfl]
        norm_num [List.chain'_cons]),
   C1_debounce_invariant.2 10000 5000 10000 ftr0
    (by rw [show List.map FaceTickIn.now ftr0 = [1000, 12000] from rfl]
        norm_num [List.chain'_cons])⟩

/-- C5 counterexample: on the trace with a phone detection at 0 ms and
1600 ms, the second tick fires (emitting PHONE_DETECTED with
persistedMs = 1600) but `firstAboveAt` is left at 0, not reset to the firing
time 1600 as the claim requires. -/
theorem C5_counterexample :
    (objRun cfg0 trFire initObjState).2 = [⟨evtPhone, 1600, 1600⟩] ∧
    (objRun cfg0 trFire initObjState).1.firstAbove evtPhone = some 0 ∧
    ¬ (objRun cfg0 trFire initObjState).1.firstAbove evtPhone = some 1600 :=
  ⟨by decide, by decide, by decide⟩

/-- C5 (amended): on every tick at which a class fires, the engine emits the
event and sets that class's lastFiredAt to now, but `firstAboveAt` is left at
the start of the current above-threshold window (now − persistedMs); it is
not reset to now — re-triggering is prevented only by the 1500 ms cooldown. -/
theorem C5_fire_updates (cfg : ObjConfig) (now : Int) (dets : List Detection) (st : ObjState) :
    ∀ em ∈ (objTick cfg now dets st).2,
      em.firedAt = now ∧
      (objTick cfg now dets st).1.lastFired em.evt = some now ∧
      (objTick cfg now dets st).1.firstAbove em.evt = some (now - em.persistedMs) ∧
      (cfg.persistMs em.evt).getD 800 ≤ em.persistedMs := by
  intro em hem
  have hm := midInv_fold cfg now st dets dets ⟨[], st, []⟩ (fun d hd => hd)
    (midInv_init cfg now st dets)
  rw [objTick_snd] at hem
  refine ⟨hm.out_fired em hem, ?_, ?_, hm.out_need em hem⟩
  · rw [objTick_fst_lf]
    exact hm.out_lf em hem
  · rw [objTick_fst_fa]
    rw [if_neg (fun hc => hc.2 (hm.out_present em hem))]
    exact hm.out_fa em hem

/-- Witness for C5 (amended) at the firing tick of the counterexample trace. -/
theorem C5_fire_updates_witness :
    (⟨evtPhone, 1600, 1600⟩ : Emission) ∈ (objTick cfg0 1600 [dPhone] stAfter0).2 ∧
    ((⟨evtPhone, 1600, 1600⟩ : Emission).firedAt = 1600 ∧
     (objTick cfg0 1600 [dPhone] stAfter0).1.lastFired evtPhone = some 1600 ∧
     (objTick cfg0 1600 [dPhone] stAfter0).1.firstAbove evtPhone = some (1600 - 1600) ∧
     (cfg0.persistMs evtPhone).getD 800 ≤ 1600) :=
  ⟨by decide, C5_fire_updates cfg0 1600 [dPhone] stAfter0 ⟨evtPhone, 1600, 1600⟩ (by decide)⟩

/-- C6: every monitored class not detected above threshold on a tick has its
firstAboveAt reset to null, so the persistence timer restarts after any
interruption; concretely, a phone held above threshold for exactly the 800 ms
persistence window fires exactly one event, while the same signal interrupted
just before 800 ms elapse and then restarting fires none. -/
theorem C6_absence_resets :
    (∀ (cfg : ObjConfig) (st : ObjState) (now : Int) (dets : List Detection) (evt : String),
      evt ∈ MONITORED → ¬ presentAt cfg evt ⟨now, dets⟩ →
      (objTick cfg now dets st).1.firstAbove evt = none) ∧
    (objRun cfg0 trHold initObjState).2 = [⟨evtPhone, 100800, 800⟩] ∧
    (objRun cfg0 trFlicker initObjState).2 = [] := by
  refine ⟨?_, by decide, by decide⟩
  intro cfg st now dets evt hmon hnp
  have hm := midInv_fold cfg now st dets dets ⟨[], st, []⟩ (fun d hd => hd)
    (midInv_init cfg now st dets)
  rw [objTick_fst_fa]
  rw [if_pos ⟨hmon, fun hp => hnp (hm.present_sound evt hp)⟩]

/-- Witness for C6 at a tick with no detections, plus the two concrete
scenario traces. -/
theorem C6_absence_resets_witness :
    (objTick cfg0 200 [] initObjState).1.firstAbove evtPhone = none ∧
    (objRun cfg0 trHold initObjState).2 = [⟨evtPhone, 100800, 800⟩] ∧
    (objRun cfg0 trFlicker initObjState).2 = [] :=
  ⟨C6_absence_resets.1 cfg0 initObjState 200 [] evtPhone (by decide) (by decide),
   C6_absence_resets.2.1, C6_absence_resets.2.2⟩

/-- Witness for C10 at a concrete batch. -/
theorem C10_events_post_witness :
    ∃ docs : List ProctorEventDB,
      postEvents "abc123" evBatch isoT1 = .ok (docs, evBatch.length) ∧
      docs.length = evBatch.length := by
  obtain ⟨docs, h1, h2, _⟩ := C10_events_post "abc123" evBatch isoT1 (by decide)
  exact ⟨docs, h1, h2⟩

end Proctor
